import Mathlib

/-!
Verification development for `src/data/utilities/fetch_utility_rates.py`, the
multi-source utility-rate reconciliation pipeline.

The Python module is shallowly embedded as follows.

* Python floats are modelled as exact rationals (`ℚ`); `round(x, n)` becomes
  `roundq n x`, exact rational rounding (half-up).  Python's float `round`
  applies banker's rounding to binary floating point values; the two agree
  except at exact decimal ties, which no value in this development reaches.
* JSON dictionaries coming back from the API are modelled structurally: a
  `RawItem` carries the identity fields used by the pipeline plus the nested
  rate-structure fields (`RateData`).  A key that is absent or null is `none`.
* The network is the environment: `fetch_utilities_for_state` receives the
  list of per-query-point responses and a function giving the response of each
  direct utility-name query, instead of performing HTTP calls.
* `time.sleep`, `print` and file output are effect-free and are dropped;
  `api_call`'s retry loop is modelled over a sequence of attempt outcomes,
  recording the back-off sleeps it would perform.
* Python's per-process string `hash` is an arbitrary parameter
  `hashS : String → Int`; `datetime.now().strftime(...)` is a parameter
  `today : String`.
* The accumulator dictionary `utilities_by_eia` is an insertion-ordered
  association list with the usual Python dict update semantics (`dictSet`).
-/

namespace UtilityRates

/-- Embedding of Python `round(x, n)` on exact rationals. -/
def roundq (n : ℕ) (x : ℚ) : ℚ := (round (x * 10 ^ n) : ℚ) / 10 ^ n

/-- Helper for the embedding of Python's substring operator `in`:
`subListAt needle hay` is true iff `needle` occurs contiguously in `hay`. -/
def subListAt (needle : List Char) : List Char → Bool
  | [] => needle.isEmpty
  | c :: rest => needle.isPrefixOf (c :: rest) || subListAt needle rest

/-- Embedding of Python's `needle in hay` on strings. -/
def strContains (needle hay : String) : Bool :=
  subListAt needle.toList hay.toList

/-- Embedding of Python's `str.lower()` (character-wise lowering; all strings
the script compares are ASCII). -/
def strLower (s : String) : String := String.mk (s.data.map Char.toLower)

/-- Embedding of the case-insensitive mutual-substring test the script uses to
match utility names:
`a.lower() in b.lower() or b.lower() in a.lower()`. -/
def nameMatch (a b : String) : Bool :=
  strContains (strLower a) (strLower b) || strContains (strLower b) (strLower a)

/-- Embedding of Python's `set(...)` as used in `classify_rate_structure`:
the list of distinct values of a list (only its length is ever consumed,
mirroring `len(periods_used)`). -/
def distinctVals : List Int → List Int
  | [] => []
  | v :: rest =>
    if v ∈ distinctVals rest then distinctVals rest else v :: distinctVals rest

/-- One entry of a period of `energyratestructure`: either a dict carrying a
`"rate"` key (with `"adj"` defaulting to 0 via `tier.get("adj", 0)`), or
anything else (a non-dict entry, or a dict without `"rate"`), which the
extractor skips. -/
inductive TierEntry where
  | tierD (rate : ℚ) (adj : ℚ)
  | nonDict
deriving DecidableEq

/-- One entry of `energyratestructure`: either a list of tiers or a non-list
entry, which both the extractor and the classifier skip. -/
inductive PeriodEntry where
  | periodL (tiers : List TierEntry)
  | nonList
deriving DecidableEq

/-- Nested rate-structure fields of one raw API item.  `none` models an
absent (or null) key; schedules model JSON months that may fail
`isinstance(month, list)` as `none` entries. -/
structure RateData where
  energyratestructure : Option (List PeriodEntry) := none
  energyweekdayschedule : List (Option (List Int)) := []
  energyweekendschedule : List (Option (List Int)) := []
  fixedmonthlycharge : Option ℚ := none
  demandratestructure : Bool := false
  flatdemandstructure : Bool := false
  demandmax : Bool := false
deriving DecidableEq

/-- Inner loop of `extract_rate_from_structure`: accumulate
`(total_rate, count)` over one tier. -/
def tierStep (acc : ℚ × ℕ) (t : TierEntry) : ℚ × ℕ :=
  match t with
  | .tierD rate adj => (acc.1 + (rate + adj), acc.2 + 1)
  | .nonDict => acc

/-- Outer loop of `extract_rate_from_structure`: accumulate over one period,
skipping entries that are not lists. -/
def periodStep (acc : ℚ × ℕ) (p : PeriodEntry) : ℚ × ℕ :=
  match p with
  | .periodL tiers => tiers.foldl tierStep acc
  | .nonList => acc

/-- Embedding of `extract_rate_from_structure` (lines 223-251): mean of
`rate + adj` over all rate-carrying tiers, rounded to 5 decimal places;
falling back to `fixedmonthlycharge / 1000` when positive; else `none`. -/
def extract_rate_from_structure (rate_data : RateData) : Option ℚ :=
  let fromStructure : Option ℚ :=
    match rate_data.energyratestructure with
    | some s =>
      if s.length > 0 then
        let tc := s.foldl periodStep ((0 : ℚ), (0 : ℕ))
        if tc.2 > 0 then some (roundq 5 (tc.1 / (tc.2 : ℚ))) else none
      else none
    | none => none
  match fromStructure with
  | some r => some r
  | none =>
    match rate_data.fixedmonthlycharge with
    | some fixedRaw =>
      let fixed : ℚ := fixedRaw
      let fixed_per_kwh : ℚ := if fixed ≠ 0 then fixed / 1000 else 0
      if fixed_per_kwh > 0 then some (roundq 5 fixed_per_kwh) else none
    | none => none

/-- Embedding of `classify_rate_structure` (lines 254-286). -/
def classify_rate_structure (rate_data : RateData) : String :=
  let weekday := rate_data.energyweekdayschedule
  let _weekend := rate_data.energyweekendschedule
  let periods_used : List Int := (weekday.filterMap id).flatten
  let has_tou : Bool := !weekday.isEmpty && decide ((distinctVals periods_used).length > 1)
  let s := rate_data.energyratestructure.getD []
  let has_tiers : Bool := s.any fun p =>
    match p with
    | .periodL tiers => decide (tiers.length > 1)
    | .nonList => false
  if has_tou then "tou" else if has_tiers then "tiered" else "flat"

/-- Embedding of `has_demand_charges` (lines 289-297); the three fields are
modelled as their truthiness. -/
def has_demand_charges (rate_data : RateData) : Bool :=
  if rate_data.demandratestructure then true
  else if rate_data.flatdemandstructure then true
  else if rate_data.demandmax then true
  else false

/-- Cooperative keywords of `classify_utility_type` (line 303). -/
def COOP_KEYWORDS : List String := ["coop", "cooperative", "co-op", "emc", "ec ", "rec ", "remc"]

/-- Municipal keywords of `classify_utility_type` (lines 305-307). -/
def MUNI_KEYWORDS : List String :=
  ["city of", "municipal", "dept of", "department of", "public util",
   "pud", "district", "authority", "board", "town of", "village of",
   "cwl&p", "city light", "electric service", "utilities board"]

/-- Embedding of `classify_utility_type` (lines 300-309). -/
def classify_utility_type (utility_name : String) : String :=
  let name_lower := strLower utility_name
  if COOP_KEYWORDS.any (fun kw => strContains kw name_lower) then "coop"
  else if MUNI_KEYWORDS.any (fun kw => strContains kw name_lower) then "muni"
  else "IOU"

/-- Net-metering policy record: the values of `NET_METERING_POLICIES`. -/
structure NetMeteringInfo where
  has_net_metering : Bool
  net_metering_type : String
  export_rate : Option ℚ
deriving DecidableEq

/-- Embedding of the static table `EIA_STATE_AVG_RATES` (lines 134-145). -/
def EIA_STATE_AVG_RATES : List (String × ℚ) := [
  ("AL", 0.1398), ("AK", 0.2350), ("AZ", 0.1305), ("AR", 0.1187), ("CA", 0.2737),
  ("CO", 0.1412), ("CT", 0.2663), ("DE", 0.1432), ("FL", 0.1398), ("GA", 0.1323),
  ("HI", 0.3878), ("ID", 0.1060), ("IL", 0.1547), ("IN", 0.1362), ("IA", 0.1397),
  ("KS", 0.1390), ("KY", 0.1181), ("LA", 0.1133), ("ME", 0.2245), ("MD", 0.1566),
  ("MA", 0.2837), ("MI", 0.1783), ("MN", 0.1407), ("MS", 0.1267), ("MO", 0.1262),
  ("MT", 0.1194), ("NE", 0.1171), ("NV", 0.1285), ("NH", 0.2361), ("NJ", 0.1792),
  ("NM", 0.1382), ("NY", 0.2226), ("NC", 0.1218), ("ND", 0.1142), ("OH", 0.1413),
  ("OK", 0.1153), ("OR", 0.1199), ("PA", 0.1622), ("RI", 0.2678), ("SC", 0.1315),
  ("SD", 0.1275), ("TN", 0.1177), ("TX", 0.1356), ("UT", 0.1076), ("VT", 0.2074),
  ("VA", 0.1297), ("WA", 0.1047), ("WV", 0.1243), ("WI", 0.1574), ("WY", 0.1109)]

/-- Embedding of the static table `MAJOR_IOUS` (lines 79-130). -/
def MAJOR_IOUS : List (String × List (String × Int)) := [
  ("AL", [("Alabama Power Co", 1500000), ("Tennessee Valley Authority", 0)]),
  ("AK", [("Chugach Electric Assn Inc", 92000), ("Golden Valley Elec Assn Inc", 45000), ("Matanuska Electric Assn Inc", 60000)]),
  ("AZ", [("Arizona Public Service Co", 1300000), ("Tucson Electric Power Co", 430000), ("Salt River Project", 1100000)]),
  ("AR", [("Entergy Arkansas LLC", 720000), ("Southwestern Electric Power Co", 110000), ("Empire District Electric Co", 50000)]),
  ("CA", [("Pacific Gas & Electric Co", 5500000), ("Southern California Edison Co", 5100000), ("San Diego Gas & Electric Co", 1500000), ("Los Angeles Dept of Water & Power", 1500000), ("Sacramento Municipal Util Dist", 650000)]),
  ("CO", [("Public Service Co of Colorado", 1500000), ("Colorado Springs Utilities", 240000), ("Black Hills Colorado Electric", 100000)]),
  ("CT", [("Eversource Energy", 1300000), ("United Illuminating Co", 340000)]),
  ("DE", [("Delmarva Power", 310000)]),
  ("FL", [("Florida Power & Light Co", 5600000), ("Duke Energy Florida LLC", 1900000), ("Tampa Electric Co", 800000), ("JEA", 490000), ("Gulf Power Co", 480000)]),
  ("GA", [("Georgia Power Co", 2700000), ("Cobb EMC", 200000), ("Jackson EMC", 230000)]),
  ("HI", [("Hawaiian Electric Co Inc", 470000), ("Maui Electric Co Ltd", 75000), ("Hawaii Electric Light Co Inc", 85000)]),
  ("ID", [("Idaho Power Co", 600000), ("Rocky Mountain Power", 90000), ("Avista Corp", 50000)]),
  ("IL", [("Commonwealth Edison Co", 4000000), ("Ameren Illinois Co", 1200000), ("MidAmerican Energy Co", 150000)]),
  ("IN", [("Indiana Michigan Power Co", 470000), ("Duke Energy Indiana LLC", 850000), ("Indianapolis Power & Light Co", 500000), ("Indiana & Michigan Electric", 200000)]),
  ("IA", [("MidAmerican Energy Co", 780000), ("Alliant Energy", 500000), ("Interstate Power and Light Co", 230000)]),
  ("KS", [("Evergy Kansas Central", 700000), ("Evergy Kansas Metro", 330000), ("Empire District Electric Co", 50000)]),
  ("KY", [("Kentucky Utilities Co", 540000), ("Louisville Gas & Electric Co", 410000), ("Duke Energy Kentucky", 150000), ("Kentucky Power Co", 165000)]),
  ("LA", [("Entergy Louisiana LLC", 1100000), ("Cleco Power LLC", 300000), ("Southwestern Electric Power Co", 150000)]),
  ("ME", [("Central Maine Power Co", 640000), ("Versant Power", 160000)]),
  ("MD", [("Baltimore Gas & Electric Co", 1300000), ("Potomac Electric Power Co", 600000), ("Delmarva Power", 200000)]),
  ("MA", [("Eversource Energy", 1500000), ("National Grid", 1300000), ("Unitil Energy Systems", 110000)]),
  ("MI", [("DTE Electric Co", 2200000), ("Consumers Energy Co", 1800000), ("Indiana Michigan Power Co", 80000)]),
  ("MN", [("Northern States Power Co", 1500000), ("Minnesota Power", 150000), ("Otter Tail Power Co", 65000)]),
  ("MS", [("Entergy Mississippi LLC", 460000), ("Mississippi Power Co", 190000), ("Tennessee Valley Authority", 0)]),
  ("MO", [("Ameren Missouri", 1200000), ("Evergy Missouri West", 300000), ("Empire District Electric Co", 170000)]),
  ("MT", [("NorthWestern Corp", 380000), ("Flathead Electric Coop", 60000)]),
  ("NE", [("Omaha Public Power District", 390000), ("Nebraska Public Power District", 250000), ("Lincoln Electric System", 140000)]),
  ("NV", [("NV Energy (Sierra Pacific)", 400000), ("NV Energy (Nevada Power)", 1000000)]),
  ("NH", [("Eversource Energy", 520000), ("Liberty Utilities", 45000), ("Unitil Energy Systems", 40000)]),
  ("NJ", [("Public Service Elec & Gas Co", 2300000), ("Jersey Central Power & Light", 1100000), ("Atlantic City Electric Co", 560000)]),
  ("NM", [("Public Service Co of New Mexico", 550000), ("El Paso Electric Co", 110000), ("Southwestern Public Service Co", 60000)]),
  ("NY", [("Consolidated Edison Co", 3400000), ("National Grid", 1700000), ("New York State Elec & Gas Corp", 900000), ("Central Hudson Gas & Elec Corp", 310000), ("Rochester Gas & Electric Corp", 380000), ("Long Island Power Authority", 1100000)]),
  ("NC", [("Duke Energy Carolinas LLC", 2700000), ("Duke Energy Progress LLC", 1700000), ("Dominion Energy North Carolina", 130000)]),
  ("ND", [("Montana-Dakota Utilities Co", 70000), ("Otter Tail Power Co", 35000), ("Xcel Energy", 40000)]),
  ("OH", [("Ohio Edison Co", 1050000), ("Cleveland Elec Illuminating Co", 750000), ("Ohio Power Co", 1500000), ("Duke Energy Ohio Inc", 720000), ("Dayton Power & Light Co", 530000)]),
  ("OK", [("Oklahoma Gas & Electric Co", 880000), ("Public Service Co of Oklahoma", 560000), ("Empire District Electric Co", 40000)]),
  ("OR", [("Portland General Electric Co", 900000), ("PacifiCorp", 600000), ("Idaho Power Co", 30000)]),
  ("PA", [("PECO Energy Co", 1600000), ("PPL Electric Utilities Corp", 1400000), ("Duquesne Light Co", 600000), ("West Penn Power Co", 720000), ("Metropolitan Edison Co", 560000)]),
  ("RI", [("Rhode Island Energy", 500000)]),
  ("SC", [("Duke Energy Carolinas LLC", 800000), ("Duke Energy Progress LLC", 500000), ("South Carolina Electric & Gas", 730000)]),
  ("SD", [("Northwestern Energy", 75000), ("Xcel Energy", 50000), ("Otter Tail Power Co", 20000)]),
  ("TN", [("Tennessee Valley Authority", 0), ("Nashville Electric Service", 400000), ("Memphis Light Gas & Water", 450000), ("Knoxville Utilities Board", 200000)]),
  ("TX", [("Oncor Electric Delivery Co", 3700000), ("CenterPoint Energy", 2600000), ("AEP Texas", 1100000), ("Texas-New Mexico Power Co", 250000), ("Austin Energy", 500000), ("CPS Energy", 870000)]),
  ("UT", [("Rocky Mountain Power", 950000), ("City of St George", 35000)]),
  ("VT", [("Green Mountain Power Corp", 270000), ("Vermont Electric Coop", 33000)]),
  ("VA", [("Dominion Energy Virginia", 2700000), ("Appalachian Power Co", 530000), ("Virginia Electric & Power Co", 0)]),
  ("WA", [("Puget Sound Energy Inc", 1200000), ("Avista Corp", 260000), ("Seattle City Light", 450000), ("Tacoma Power", 190000), ("Snohomish County PUD No 1", 350000)]),
  ("WV", [("Appalachian Power Co", 490000), ("Monongahela Power Co", 390000), ("Potomac Edison Co", 125000)]),
  ("WI", [("Wisconsin Electric Power Co", 1100000), ("Wisconsin Public Service Corp", 460000), ("Alliant Energy", 480000), ("Madison Gas & Electric Co", 160000)]),
  ("WY", [("Rocky Mountain Power", 135000), ("Cheyenne Light Fuel & Power Co", 42000), ("Black Hills Power Inc", 25000)])]

/-- Embedding of the static table `NET_METERING_POLICIES` (lines 148-199). -/
def NET_METERING_POLICIES : List (String × NetMeteringInfo) := [
  ("AL", ⟨false, "avoided_cost", none⟩),
  ("AK", ⟨true, "NEM", none⟩),
  ("AZ", ⟨true, "net_billing", none⟩),
  ("AR", ⟨true, "NEM", none⟩),
  ("CA", ⟨true, "net_billing", some 0.05⟩),
  ("CO", ⟨true, "NEM", none⟩),
  ("CT", ⟨true, "NEM", none⟩),
  ("DE", ⟨true, "NEM", none⟩),
  ("FL", ⟨true, "NEM", none⟩),
  ("GA", ⟨false, "none", none⟩),
  ("HI", ⟨true, "net_billing", none⟩),
  ("ID", ⟨true, "net_billing", none⟩),
  ("IL", ⟨true, "NEM", none⟩),
  ("IN", ⟨true, "net_billing", none⟩),
  ("IA", ⟨true, "NEM", none⟩),
  ("KS", ⟨true, "NEM", none⟩),
  ("KY", ⟨true, "NEM", none⟩),
  ("LA", ⟨true, "net_billing", none⟩),
  ("ME", ⟨true, "net_billing", none⟩),
  ("MD", ⟨true, "NEM", none⟩),
  ("MA", ⟨true, "NEM", none⟩),
  ("MI", ⟨true, "net_billing", none⟩),
  ("MN", ⟨true, "NEM", none⟩),
  ("MS", ⟨false, "avoided_cost", none⟩),
  ("MO", ⟨true, "NEM", none⟩),
  ("MT", ⟨true, "NEM", none⟩),
  ("NE", ⟨true, "NEM", none⟩),
  ("NV", ⟨true, "net_billing", none⟩),
  ("NH", ⟨true, "NEM", none⟩),
  ("NJ", ⟨true, "NEM", none⟩),
  ("NM", ⟨true, "NEM", none⟩),
  ("NY", ⟨true, "net_billing", none⟩),
  ("NC", ⟨true, "NEM", none⟩),
  ("ND", ⟨true, "NEM", none⟩),
  ("OH", ⟨true, "NEM", none⟩),
  ("OK", ⟨true, "NEM", none⟩),
  ("OR", ⟨true, "NEM", none⟩),
  ("PA", ⟨true, "NEM", none⟩),
  ("RI", ⟨true, "NEM", none⟩),
  ("SC", ⟨true, "net_billing", none⟩),
  ("SD", ⟨true, "NEM", none⟩),
  ("TN", ⟨false, "avoided_cost", none⟩),
  ("TX", ⟨false, "none", none⟩),
  ("UT", ⟨true, "net_billing", none⟩),
  ("VT", ⟨true, "NEM", none⟩),
  ("VA", ⟨true, "NEM", none⟩),
  ("WA", ⟨true, "NEM", none⟩),
  ("WV", ⟨true, "NEM", none⟩),
  ("WI", ⟨true, "NEM", none⟩),
  ("WY", ⟨true, "NEM", none⟩)]

/-- Embedding of `EIA_STATE_AVG_RATES.get(state_code, 0.13)`. -/
def eiaAvg (state_code : String) : ℚ :=
  (EIA_STATE_AVG_RATES.lookup state_code).getD 0.13

/-- Embedding of `MAJOR_IOUS.get(state_code, {})` (line 315). -/
def knownIousOf (state_code : String) : List (String × Int) :=
  (MAJOR_IOUS.lookup state_code).getD []

/-- Default policy values: the geographic path supplies them via an explicit
default dict (lines 375-379); the direct and synthesized paths reach the same
values through `.get` defaults on the empty dict (lines 437, 448-450). -/
def defaultNmInfo : NetMeteringInfo := ⟨false, "none", none⟩

/-- Embedding of `NET_METERING_POLICIES.get(state_code, ...)`. -/
def nmInfoOf (state_code : String) : NetMeteringInfo :=
  (NET_METERING_POLICIES.lookup state_code).getD defaultNmInfo

/-- One stored utility record (the dicts built at lines 385-403, 439-457 and
461-479).  Fields prefixed `internal_` model the keys prefixed `_` in the
source, which are stripped before the per-state list is returned. -/
structure URec where
  utility_id : String
  utility_name : String
  state : String
  states_served : List String
  type : String
  customer_count : Int
  residential_avg_rate : ℚ
  rate_structure : String
  has_net_metering : Bool
  net_metering_type : String
  export_rate : Option ℚ
  tou_available : Bool
  demand_charges : Bool
  updated_at : String
  internal_startdate : Int
  internal_rate_name : String
  internal_source : String
deriving DecidableEq

/-- A record after the `_`-prefixed internal keys are stripped (lines 483-486). -/
structure CleanRec where
  utility_id : String
  utility_name : String
  state : String
  states_served : List String
  type : String
  customer_count : Int
  residential_avg_rate : ℚ
  rate_structure : String
  has_net_metering : Bool
  net_metering_type : String
  export_rate : Option ℚ
  tou_available : Bool
  demand_charges : Bool
  updated_at : String
deriving DecidableEq

/-- Embedding of the internal-field strip (lines 484-486). -/
def cleanRec (u : URec) : CleanRec :=
  { utility_id := u.utility_id
    utility_name := u.utility_name
    state := u.state
    states_served := u.states_served
    type := u.type
    customer_count := u.customer_count
    residential_avg_rate := u.residential_avg_rate
    rate_structure := u.rate_structure
    has_net_metering := u.has_net_metering
    net_metering_type := u.net_metering_type
    export_rate := u.export_rate
    tou_available := u.tou_available
    demand_charges := u.demand_charges
    updated_at := u.updated_at }

/-- Python-dict update on an insertion-ordered association list: assignment
to an existing key replaces the value in place, otherwise the pair is
appended. -/
def dictSet {α : Type} (m : List (Int × α)) (k : Int) (v : α) : List (Int × α) :=
  if m.any (fun p => p.1 == k) then
    m.map (fun p => if p.1 == k then (k, v) else p)
  else m ++ [(k, v)]

/-- Python `dict.get(k)`, `None` when the key is absent. -/
def dictGet? {α : Type} (m : List (Int × α)) (k : Int) : Option α :=
  (m.find? (fun p => p.1 == k)).map (fun p => p.2)

/-- One raw item of an API response.  `eiaid`, `utility` and `startdate`
model the `item.get(...)` accesses (`none` = key absent or null); the nested
rate-structure fields live in the `RateData` part. -/
structure RawItem extends RateData where
  eiaid : Option Int := none
  utility : Option String := none
  startdate : Option Int := none
  name : String := ""
  source : String := ""
deriving DecidableEq

/-- A successfully decoded API response carrying an `items` array.
`Option ApiData = none` models `api_call` returning `None`, a falsy
response, or a response without an `"items"` key. -/
structure ApiData where
  items : List RawItem
deriving DecidableEq

/-- Customer-count resolution (lines 366-371): exact dict lookup, then the
first case-insensitive mutual-substring match. -/
def resolveCustomerCount (known_ious : List (String × Int)) (utility_name : String) : Int :=
  let customer_count := (known_ious.lookup utility_name).getD 0
  if customer_count == 0 then
    match known_ious.find? (fun p => nameMatch p.1 utility_name) with
    | some p => p.2
    | none => customer_count
  else customer_count

/-- Rate plausibility fallback (lines 381-383, repeated at 432-435): a
missing or implausible extracted rate is replaced by the state's EIA
average. -/
def plausibleRate (state_code : String) (avg_rate : Option ℚ) : ℚ :=
  match avg_rate with
  | none => eiaAvg state_code
  | some r => if r < 0.01 ∨ r > 1.0 then eiaAvg state_code else r

/-- The record stored by the geographic path (lines 359-403). -/
def geoRecord (state_code : String) (known_ious : List (String × Int)) (today : String)
    (item : RawItem) (eia_id : Int) (utility_name : String) (item_start : Int) : URec :=
  let avg_rate := plausibleRate state_code (extract_rate_from_structure item.toRateData)
  let rate_structure := classify_rate_structure item.toRateData
  let nm_info := nmInfoOf state_code
  { utility_id := toString eia_id
    utility_name := utility_name
    state := state_code
    states_served := [state_code]
    type := classify_utility_type utility_name
    customer_count := resolveCustomerCount known_ious utility_name
    residential_avg_rate := roundq 4 avg_rate
    rate_structure := rate_structure
    has_net_metering := nm_info.has_net_metering
    net_metering_type := nm_info.net_metering_type
    export_rate := nm_info.export_rate
    tou_available := rate_structure == "tou"
    demand_charges := has_demand_charges item.toRateData
    updated_at := today
    internal_startdate := item_start
    internal_rate_name := item.name
    internal_source := item.source }

/-- Processing of one raw item by the geographic loop (lines 341-403): skip
falsy `eiaid`; keep an existing record unless the new item's start date is
strictly newer. -/
def processItem (state_code : String) (known_ious : List (String × Int)) (today : String)
    (m : List (Int × URec)) (item : RawItem) : List (Int × URec) :=
  let utility_name := item.utility.getD "Unknown"
  match item.eiaid with
  | none => m
  | some eia_id =>
    if eia_id == 0 then m
    else
      let existing := dictGet? m eia_id
      let item_start := item.startdate.getD 0
      let accept : Bool :=
        match existing with
        | some ex => decide (item_start > ex.internal_startdate)
        | none => true
      if accept then
        dictSet m eia_id (geoRecord state_code known_ious today item eia_id utility_name item_start)
      else m

/-- Processing of one geographic query's response (lines 337-406): a failed
or item-less response contributes nothing and the loop continues. -/
def processGeoResponse (state_code : String) (known_ious : List (String × Int)) (today : String)
    (m : List (Int × URec)) (resp : Option ApiData) : List (Int × URec) :=
  match resp with
  | none => m
  | some data => data.items.foldl (processItem state_code known_ious today) m

/-- The record stored by the direct utility-name path (lines 429-457). -/
def directRecord (state_code : String) (today : String) (iou_name : String)
    (customer_count : Int) (item : RawItem) (eia_id : Int) : URec :=
  let avg_rate := plausibleRate state_code (extract_rate_from_structure item.toRateData)
  let nm_info := nmInfoOf state_code
  { utility_id := toString eia_id
    utility_name := iou_name
    state := state_code
    states_served := [state_code]
    type := classify_utility_type iou_name
    customer_count := customer_count
    residential_avg_rate := roundq 4 avg_rate
    rate_structure := classify_rate_structure item.toRateData
    has_net_metering := nm_info.has_net_metering
    net_metering_type := nm_info.net_metering_type
    export_rate := nm_info.export_rate
    tou_available := classify_rate_structure item.toRateData == "tou"
    demand_charges := has_demand_charges item.toRateData
    updated_at := today
    internal_startdate := item.startdate.getD 0
    internal_rate_name := item.name
    internal_source := item.source }

/-- The record synthesized from reference data alone (lines 461-479). -/
def synthRecord (state_code : String) (today : String) (iou_name : String)
    (customer_count : Int) (key : Int) : URec :=
  let nm_info := nmInfoOf state_code
  { utility_id := toString key
    utility_name := iou_name
    state := state_code
    states_served := [state_code]
    type := classify_utility_type iou_name
    customer_count := customer_count
    residential_avg_rate := eiaAvg state_code
    rate_structure := "tiered"
    has_net_metering := nm_info.has_net_metering
    net_metering_type := nm_info.net_metering_type
    export_rate := nm_info.export_rate
    tou_available := false
    demand_charges := false
    updated_at := today
    internal_startdate := 0
    internal_rate_name := "Estimated"
    internal_source := "EIA-861" }

/-- Back-fill step for one known utility (lines 409-480): skip zero-count
entries; skip entries already matched by an accumulated record; otherwise
store a record from the direct-name query, or synthesize one from reference
data when that query yields nothing. -/
def processKnownIou (hashS : String → Int) (state_code : String) (today : String)
    (direct : String → Option ApiData)
    (m : List (Int × URec)) (p : String × Int) : List (Int × URec) :=
  let iou_name := p.1
  let customer_count := p.2
  if customer_count == 0 then m
  else
    let found := m.any (fun q => nameMatch iou_name q.2.utility_name)
    if found then m
    else
      match direct iou_name with
      | some data =>
        match data.items with
        | item :: _ =>
          let eia_id := item.eiaid.getD (hashS iou_name)
          dictSet m eia_id (directRecord state_code today iou_name customer_count item eia_id)
        | [] =>
          dictSet m (hashS iou_name) (synthRecord state_code today iou_name customer_count (hashS iou_name))
      | none =>
        dictSet m (hashS iou_name) (synthRecord state_code today iou_name customer_count (hashS iou_name))

/-- The dictionary key under which the back-fill step for a known utility
stores its record, whenever it stores one. -/
def backfillKey (hashS : String → Int) (direct : String → Option ApiData) (iou_name : String) : Int :=
  match direct iou_name with
  | some data =>
    match data.items with
    | item :: _ => item.eiaid.getD (hashS iou_name)
    | [] => hashS iou_name
  | none => hashS iou_name

/-- The geographic phase of `fetch_utilities_for_state` (lines 317-406): fold
the per-query-point responses into the accumulator dictionary, starting
empty. -/
def geoPhase (today : String) (geoResponses : List (Option ApiData))
    (state_code : String) : List (Int × URec) :=
  geoResponses.foldl (processGeoResponse state_code (knownIousOf state_code) today) []

/-- The back-fill phase of `fetch_utilities_for_state` (lines 409-480): fold
the known utilities of the state over the accumulator. -/
def backfillPhase (hashS : String → Int) (today : String)
    (direct : String → Option ApiData) (state_code : String)
    (m : List (Int × URec)) : List (Int × URec) :=
  (knownIousOf state_code).foldl (processKnownIou hashS state_code today direct) m

/-- Embedding of `fetch_utilities_for_state` (lines 312-489) over an explicit
environment: `geoResponses` are the responses of the geographic queries (one
entry per query point) and `direct` gives each direct utility-name query's
response. -/
def fetch_utilities_for_state (hashS : String → Int) (today : String)
    (geoResponses : List (Option ApiData)) (direct : String → Option ApiData)
    (state_code : String) : List CleanRec :=
  let afterKnown := backfillPhase hashS today direct state_code
    (geoPhase today geoResponses state_code)
  let results := afterKnown.map (fun p => cleanRec p.2)
  results.mergeSort (fun a b => decide (b.customer_count ≤ a.customer_count))

/-- Outcome of one attempted HTTP request inside `api_call`: a decoded JSON
response, or a caught exception (`URLError`, `HTTPError`,
`JSONDecodeError`). -/
inductive ApiOutcome where
  | success (data : ApiData)
  | failure (reason : String)

/-- Whether an attempt outcome is a caught exception. -/
def ApiOutcome.isFailure : ApiOutcome → Bool
  | .success _ => false
  | .failure _ => true

/-- Retry loop of `api_call` (lines 209-220) over a sequence of attempt
outcomes, returning the result together with the list of back-off sleeps (in
seconds) performed between attempts.  `attempt` is the 0-based loop index and
`fuel` the number of iterations `range(retries)` still has; exhausting the
range falls off the loop and returns `None`. -/
def api_call_from (oc : ℕ → ApiOutcome) (retries : ℕ) : ℕ → ℕ → Option ApiData × List ℕ
  | 0, _ => (none, [])
  | fuel + 1, attempt =>
    match oc attempt with
    | .success data => (some data, [])
    | .failure _ =>
      if attempt < retries - 1 then
        let rest := api_call_from oc retries fuel (attempt + 1)
        (rest.1, 1 * (attempt + 1) :: rest.2)
      else (none, [])

/-- Embedding of `api_call` (lines 202-220) at its call-site arity: every
call in the script uses the default `retries=3`. -/
def api_call (oc : ℕ → ApiOutcome) : Option ApiData × List ℕ :=
  api_call_from oc 3 3 0

/-- Per-state summary entry recorded by `main` (lines 528-532). -/
structure StateSummaryEntry where
  utility_count : ℕ
  avg_rate : ℚ
  eia_avg_rate : ℚ
deriving DecidableEq

/-- Per-state average rate written by `main` (lines 515-517): mean of the
member utilities' rates, with `max(len, 1)` guarding the empty state. -/
def state_avg_rate (utilities : List CleanRec) : ℚ :=
  roundq 4 ((utilities.map (fun u => u.residential_avg_rate)).sum / ((max utilities.length 1 : ℕ) : ℚ))

/-- The national rollup written by `main` (lines 538-548), restricted to its
computed numeric fields (the remaining fields are verbatim copies of inputs
or timestamps). -/
structure NationalData where
  total_utilities : ℕ
  states_covered : ℕ
  national_avg_rate : ℚ
deriving DecidableEq

/-- Embedding of the national summary construction in `main` (lines 538-548):
`national_avg_rate` is computed from the static EIA table only. -/
def national_data (all_utilities : List CleanRec)
    (state_summary : List (String × StateSummaryEntry)) : NationalData :=
  { total_utilities := all_utilities.length
    states_covered := state_summary.length
    national_avg_rate :=
      roundq 4 ((EIA_STATE_AVG_RATES.map Prod.snd).sum / (EIA_STATE_AVG_RATES.length : ℚ)) }

/-! ### Specification-side definitions

These restate, in the spec's own terms, the quantities the claims talk
about; the theorems below compare them with the embedded source
definitions. -/

/-- The value `rate + adj` carried by a rate-carrying tier. -/
def tierValue? (t : TierEntry) : Option ℚ :=
  match t with
  | .tierD rate adj => some (rate + adj)
  | .nonDict => none

/-- Spec-side reading of "every tier in every period": the list of
`rate + adjustment` values of all rate-carrying tiers, in order. -/
def tierValues (s : List PeriodEntry) : List ℚ :=
  (s.map (fun p =>
    match p with
    | .periodL tiers => tiers.filterMap tierValue?
    | .nonList => [])).flatten

/-- The period indices collected from the weekday time-of-use schedule
(those of its months that are lists). -/
def weekdayPeriodVals (rd : RateData) : List Int :=
  (rd.energyweekdayschedule.filterMap id).flatten

/-- Spec-side reading of "the weekday schedule contains more than one
distinct period index across all its months". -/
def specMultiplePeriods (rd : RateData) : Prop :=
  ∃ a ∈ weekdayPeriodVals rd, ∃ b ∈ weekdayPeriodVals rd, a ≠ b

/-- Spec-side reading of "some rate period contains more than one tier". -/
def specMultiTier (rd : RateData) : Prop :=
  ∃ tiers, PeriodEntry.periodL tiers ∈ rd.energyratestructure.getD [] ∧ 1 < tiers.length

/-! ### Helper lemmas about the extractor -/

theorem tierStep_foldl (tiers : List TierEntry) (a : ℚ) (n : ℕ) :
    tiers.foldl tierStep (a, n) =
      (a + (tiers.filterMap tierValue?).sum, n + (tiers.filterMap tierValue?).length) := by
  induction tiers generalizing a n with
  | nil => simp
  | cons t rest ih =>
    cases t with
    | tierD r adj =>
      simp only [List.foldl_cons, tierStep, List.filterMap_cons, tierValue?, List.sum_cons,
        List.length_cons, ih, Prod.mk.injEq]
      exact ⟨by ring, by omega⟩
    | nonDict =>
      simp only [List.foldl_cons, tierStep, List.filterMap_cons, tierValue?]
      exact ih a n

theorem periodStep_foldl (s : List PeriodEntry) (a : ℚ) (n : ℕ) :
    s.foldl periodStep (a, n) = (a + (tierValues s).sum, n + (tierValues s).length) := by
  induction s generalizing a n with
  | nil => simp [tierValues]
  | cons p rest ih =>
    cases p with
    | periodL tiers =>
      simp only [List.foldl_cons, periodStep, tierStep_foldl, ih, tierValues, List.map_cons,
        List.flatten_cons, List.sum_append, List.length_append, Prod.mk.injEq]
      exact ⟨by ring, by omega⟩
    | nonList =>
      simp only [List.foldl_cons, periodStep, tierValues, List.map_cons, List.flatten_cons,
        List.nil_append]
      exact ih a n

/-! ### Helper lemmas about `distinctVals` -/

theorem mem_distinctVals {a : Int} {l : List Int} : a ∈ distinctVals l ↔ a ∈ l := by
  induction l with
  | nil => simp [distinctVals]
  | cons v rest ih =>
    by_cases h : v ∈ distinctVals rest
    · rw [distinctVals, if_pos h]
      constructor
      · intro ha
        exact List.mem_cons_of_mem v (ih.mp ha)
      · intro ha
        rcases List.mem_cons.mp ha with rfl | ha
        · exact h
        · exact ih.mpr ha
    · rw [distinctVals, if_neg h]
      simp [ih]

theorem distinctVals_nodup (l : List Int) : (distinctVals l).Nodup := by
  induction l with
  | nil => simp [distinctVals]
  | cons v rest ih =>
    by_cases h : v ∈ distinctVals rest
    · rw [distinctVals, if_pos h]
      exact ih
    · rw [distinctVals, if_neg h]
      exact List.Nodup.cons h ih

theorem one_lt_distinctVals_length {l : List Int} :
    1 < (distinctVals l).length ↔ ∃ a ∈ l, ∃ b ∈ l, a ≠ b := by
  constructor
  · intro h
    match hd : distinctVals l with
    | [] => rw [hd] at h; simp at h
    | [x] => rw [hd] at h; simp at h
    | x :: y :: t =>
      refine ⟨x, ?_, y, ?_, ?_⟩
      · exact mem_distinctVals.mp (hd ▸ List.mem_cons_self x (y :: t))
      · exact mem_distinctVals.mp (hd ▸ List.mem_cons_of_mem x (List.mem_cons_self y t))
      · have hn := distinctVals_nodup l
        rw [hd] at hn
        have := (List.nodup_cons.mp hn).1
        intro hxy
        exact this (hxy ▸ List.mem_cons_self y t)
  · rintro ⟨a, ha, b, hb, hab⟩
    by_contra h'
    push_neg at h'
    match hd : distinctVals l with
    | [] =>
      have := mem_distinctVals.mpr ha
      rw [hd] at this
      simp at this
    | [x] =>
      have h1 := mem_distinctVals.mpr ha
      have h2 := mem_distinctVals.mpr hb
      rw [hd] at h1 h2
      simp at h1 h2
      exact hab (h1.trans h2.symm)
    | x :: y :: t =>
      rw [hd] at h'
      simp at h'

theorem weekdayPeriodVals_ne_nil_of_mem {a : Int} {rd : RateData}
    (h : a ∈ weekdayPeriodVals rd) : rd.energyweekdayschedule ≠ [] := by
  intro he
  rw [weekdayPeriodVals, he] at h
  simp at h

/-- Claim C5 (amended): on any item with a non-empty rate matrix containing at
least one rate-carrying tier, the extractor returns the flat arithmetic mean
of `rate + adjustment` over every rate-carrying tier in every period,
unweighted, rounded to 5 decimal places. -/
theorem c5_mean_of_tiers_amended (rd : RateData) (s : List PeriodEntry)
    (hs : rd.energyratestructure = some s) (hnz : tierValues s ≠ []) :
    extract_rate_from_structure rd =
      some (roundq 5 ((tierValues s).sum / ((tierValues s).length : ℚ))) := by
  have hlen : 0 < (tierValues s).length := List.length_pos.mpr hnz
  have hsne : 0 < s.length := by
    rcases s with _ | ⟨p, rest⟩
    · simp [tierValues] at hnz
    · simp
  rw [extract_rate_from_structure, hs]
  simp only [if_pos hsne, periodStep_foldl, Nat.zero_add, zero_add]
  rw [if_pos hlen]

/-- Claim C5 as stated is false: item whose two tiers average to a value that
does not survive the 5-decimal rounding.  The extractor returns the rounded
value `0.1`, not the flat arithmetic mean `0.1000005`. -/
def fineTierItem : RateData :=
  { energyratestructure := some [PeriodEntry.periodL [TierEntry.tierD 0.1 0, TierEntry.tierD 0.100001 0]] }

/-- Claim C5, as stated (extractor returns the exact flat arithmetic mean), is
false at `fineTierItem`. -/
theorem c5_counterexample :
    extract_rate_from_structure fineTierItem ≠
      some ((tierValues (fineTierItem.energyratestructure.getD [])).sum /
        ((tierValues (fineTierItem.energyratestructure.getD [])).length : ℚ)) := by
  have h1 : extract_rate_from_structure fineTierItem =
      some (roundq 5 ((0 + (0.1 + 0) + (0.100001 + 0)) / 2)) := rfl
  rw [h1]
  simp only [fineTierItem, Option.getD_some, tierValues, tierValue?, List.map_cons, List.map_nil,
    List.filterMap_cons, List.filterMap_nil, List.flatten, List.sum_cons, List.sum_nil,
    List.length_cons, List.length_nil, ne_eq, Option.some.injEq, roundq, round_eq]
  norm_num

/-- The spec's own example: one period with tiers at rates 0.10 and 0.12. -/
def exampleTiers : List PeriodEntry :=
  [PeriodEntry.periodL [TierEntry.tierD 0.10 0, TierEntry.tierD 0.12 0]]

/-- Witness for `c5_mean_of_tiers_amended` at the spec's example, whose mean
0.11 is exact at 5 decimal places. -/
theorem c5_mean_witness :
    extract_rate_from_structure { energyratestructure := some exampleTiers } =
      some (roundq 5 ((tierValues exampleTiers).sum / ((tierValues exampleTiers).length : ℚ)))
    ∧ extract_rate_from_structure { energyratestructure := some exampleTiers } = some 0.11 := by
  refine ⟨c5_mean_of_tiers_amended _ exampleTiers rfl (by simp [exampleTiers, tierValues, tierValue?]), ?_⟩
  have h1 : extract_rate_from_structure { energyratestructure := some exampleTiers } =
      some (roundq 5 ((0 + (0.10 + 0) + (0.12 + 0)) / 2)) := rfl
  rw [h1, Option.some.injEq, roundq, round_eq]
  norm_num

/-- Claim C6: the classifier returns `"tou"` exactly when the weekday
schedule carries more than one distinct period index (regardless of tier
counts), else `"tiered"` exactly when some period has more than one tier,
else `"flat"`. -/
theorem c6_classify_priority (rd : RateData) :
    (classify_rate_structure rd = "tou" ↔ specMultiplePeriods rd)
    ∧ (classify_rate_structure rd = "tiered" ↔ ¬specMultiplePeriods rd ∧ specMultiTier rd)
    ∧ (classify_rate_structure rd = "flat" ↔ ¬specMultiplePeriods rd ∧ ¬specMultiTier rd) := by
  have htou : (!rd.energyweekdayschedule.isEmpty
      && decide (1 < (distinctVals (weekdayPeriodVals rd)).length)) = true
      ↔ specMultiplePeriods rd := by
    rw [Bool.and_eq_true, decide_eq_true_iff, one_lt_distinctVals_length]
    constructor
    · intro ⟨_, h⟩
      exact h
    · intro h
      refine ⟨?_, h⟩
      obtain ⟨a, ha, -⟩ := h
      have := weekdayPeriodVals_ne_nil_of_mem ha
      simp [List.isEmpty_iff, this]
  have htiers : ((rd.energyratestructure.getD []).any fun p =>
      match p with
      | .periodL tiers => decide (1 < tiers.length)
      | .nonList => false) = true ↔ specMultiTier rd := by
    rw [List.any_eq_true]
    constructor
    · rintro ⟨p, hp, hb⟩
      cases p with
      | periodL tiers => exact ⟨tiers, hp, of_decide_eq_true hb⟩
      | nonList => simp at hb
    · rintro ⟨tiers, hp, hlen⟩
      exact ⟨PeriodEntry.periodL tiers, hp, decide_eq_true hlen⟩
  rw [classify_rate_structure]
  by_cases h1 : (!rd.energyweekdayschedule.isEmpty
      && decide (1 < (distinctVals (weekdayPeriodVals rd)).length)) = true
  · rw [weekdayPeriodVals] at h1
    simp only [h1, if_true]
    rw [weekdayPeriodVals] at htou
    refine ⟨by simp [htou.mp h1], ?_, ?_⟩
    · constructor
      · intro h; exact absurd h (by decide)
      · intro ⟨hno, _⟩; exact absurd (htou.mp h1) hno
    · constructor
      · intro h; exact absurd h (by decide)
      · intro ⟨hno, _⟩; exact absurd (htou.mp h1) hno
  · rw [weekdayPeriodVals] at h1
    simp only [h1, if_false, Bool.false_eq_true]
    rw [weekdayPeriodVals] at htou
    have hno : ¬specMultiplePeriods rd := fun hm => h1 (htou.mpr hm)
    by_cases h2 : ((rd.energyratestructure.getD []).any fun p =>
        match p with
        | .periodL tiers => decide (1 < tiers.length)
        | .nonList => false) = true
    · simp only [h2, if_true]
      refine ⟨?_, ?_, ?_⟩
      · constructor
        · intro h; exact absurd h (by decide)
        · intro hm; exact absurd (htou.mpr hm) h1
      · simp [hno, htiers.mp h2]
      · constructor
        · intro h; exact absurd h (by decide)
        · intro ⟨_, hnt⟩; exact absurd (htiers.mp h2) hnt
    · simp only [h2, if_false, Bool.false_eq_true]
      refine ⟨?_, ?_, ?_⟩
      · constructor
        · intro h; exact absurd h (by decide)
        · intro hm; exact absurd (htou.mpr hm) h1
      · constructor
        · intro h; exact absurd h (by decide)
        · intro ⟨_, ht⟩; exact absurd (htiers.mpr ht) h2
      · constructor
        · intro _
          exact ⟨hno, fun ht => h2 (htiers.mpr ht)⟩
        · intro _
          trivial

/-- Claim C9: the weekend time-of-use schedule has no influence on the
classification; two items differing only in `energyweekendschedule` classify
identically. -/
theorem c9_weekend_irrelevant (rd : RateData) (ws : List (Option (List Int))) :
    classify_rate_structure { rd with energyweekendschedule := ws } =
      classify_rate_structure rd := rfl

/-- Claim C10: a raw item whose `eiaid` is missing, null, or zero is skipped
entirely by the geographic loop; it neither creates nor displaces a record. -/
theorem c10_skip_falsy_eiaid (state_code : String) (known_ious : List (String × Int))
    (today : String) (m : List (Int × URec)) (item : RawItem)
    (h : item.eiaid = none ∨ item.eiaid = some 0) :
    processItem state_code known_ious today m item = m := by
  rcases h with h | h
  · rw [processItem, h]
  · rw [processItem, h]
    simp

/-- Witness for `c10_skip_falsy_eiaid`: a zero-`eiaid` item with otherwise
rich fields leaves a non-trivial map untouched. -/
theorem c10_skip_witness :
    processItem "TX" [] "2026-01-01"
      [(5, synthRecord "TX" "2026-01-01" "Oncor Electric Delivery Co" 3700000 5)]
      { eiaid := some 0, utility := some "Oncor Electric Delivery Co", startdate := some 99 } =
      [(5, synthRecord "TX" "2026-01-01" "Oncor Electric Delivery Co" 3700000 5)] :=
  c10_skip_falsy_eiaid "TX" [] "2026-01-01" _ _ (Or.inr rfl)

/-! ### Association-list dictionary lemmas -/

theorem dictSet_cons {α : Type} (p : Int × α) (rest : List (Int × α)) (k : Int) (v : α) :
    dictSet (p :: rest) k v =
      if p.1 == k then (k, v) :: rest.map (fun q => if q.1 == k then (k, v) else q)
      else p :: dictSet rest k v := by
  by_cases hp : p.1 == k
  · simp [dictSet, hp]
    exact fun h => absurd (show p.1 = k by simpa using hp) h
  · by_cases hr : rest.any (fun q => q.1 == k)
    · simp [dictSet, hp, hr]
      exact fun h => absurd h (by simpa using hp)
    · simp [dictSet, hp, hr]

theorem dictGet?_nil {α : Type} (k : Int) : dictGet? ([] : List (Int × α)) k = none := rfl

theorem dictGet?_dictSet_self {α : Type} (m : List (Int × α)) (k : Int) (v : α) :
    dictGet? (dictSet m k v) k = some v := by
  induction m with
  | nil => simp [dictSet, dictGet?]
  | cons p rest ih =>
    rw [dictSet_cons]
    by_cases hp : p.1 == k
    · rw [if_pos hp, dictGet?, List.find?_cons_of_pos _ (by simp)]
      rfl
    · rw [if_neg hp, dictGet?, List.find?_cons_of_neg _ (by simpa using hp)]
      exact ih

/-- Every pair of the updated dictionary is the new pair or an old one. -/
theorem mem_dictSet {α : Type} {m : List (Int × α)} {k : Int} {v : α} {q : Int × α}
    (h : q ∈ dictSet m k v) : q = (k, v) ∨ q ∈ m := by
  rw [dictSet] at h
  by_cases hc : m.any (fun p => p.1 == k)
  · rw [if_pos hc] at h
    obtain ⟨p, hp, hq⟩ := List.mem_map.mp h
    by_cases hpk : p.1 == k
    · rw [if_pos hpk] at hq
      exact Or.inl hq.symm
    · rw [if_neg hpk] at hq
      exact Or.inr (hq ▸ hp)
  · rw [if_neg hc] at h
    rcases List.mem_append.mp h with h | h
    · exact Or.inr h
    · exact Or.inl (List.mem_singleton.mp h)

/-! ### Claim C2 -/

/-- Claim C2: during per-state reconciliation, an item keyed like an existing
record replaces it iff its effective-start timestamp is strictly greater than
the stored one's; on an equal or smaller timestamp the existing record is
kept and the item is discarded; when no record exists for that key the item
is accepted unconditionally. -/
theorem c2_reconcile_by_startdate (state_code : String) (known_ious : List (String × Int))
    (today : String) (m : List (Int × URec)) (item : RawItem) (e : Int)
    (he : item.eiaid = some e) (hnz : e ≠ 0) :
    (dictGet? m e = none →
      dictGet? (processItem state_code known_ious today m item) e =
        some (geoRecord state_code known_ious today item e (item.utility.getD "Unknown")
          (item.startdate.getD 0)))
    ∧ (∀ ex, dictGet? m e = some ex →
        (ex.internal_startdate < item.startdate.getD 0 →
          dictGet? (processItem state_code known_ious today m item) e =
            some (geoRecord state_code known_ious today item e (item.utility.getD "Unknown")
              (item.startdate.getD 0)))
        ∧ (item.startdate.getD 0 ≤ ex.internal_startdate →
          processItem state_code known_ious today m item = m)) := by
  constructor
  · intro hnone
    simp only [processItem, he, beq_iff_eq, if_neg hnz, hnone]
    exact dictGet?_dictSet_self m e _
  · intro ex hsome
    constructor
    · intro hlt
      simp only [processItem, he, beq_iff_eq, if_neg hnz, hsome, gt_iff_lt, decide_eq_true_eq]
      rw [if_pos hlt]
      exact dictGet?_dictSet_self m e _
    · intro hle
      simp only [processItem, he, beq_iff_eq, if_neg hnz, hsome, gt_iff_lt, decide_eq_true_eq]
      rw [if_neg (not_lt.mpr hle)]

/-- Witness for `c2_reconcile_by_startdate`: with a stored record at start
date 100, an item with start date 200 replaces it and an item with start date
100 is discarded; with an empty dictionary the item is accepted. -/
theorem c2_reconcile_witness :
    (dictGet? ([] : List (Int × URec)) 4 = none →
      dictGet? (processItem "DE" [] "2026-01-01" []
          { eiaid := some 4, utility := some "Delmarva Power", startdate := some 200 }) 4 =
        some (geoRecord "DE" [] "2026-01-01"
          { eiaid := some 4, utility := some "Delmarva Power", startdate := some 200 }
          4 "Delmarva Power" 200))
    ∧ (∀ ex, dictGet? ([] : List (Int × URec)) 4 = some ex →
        (ex.internal_startdate < 200 →
          dictGet? (processItem "DE" [] "2026-01-01" []
              { eiaid := some 4, utility := some "Delmarva Power", startdate := some 200 }) 4 =
            some (geoRecord "DE" [] "2026-01-01"
              { eiaid := some 4, utility := some "Delmarva Power", startdate := some 200 }
              4 "Delmarva Power" 200))
        ∧ (200 ≤ ex.internal_startdate →
          processItem "DE" [] "2026-01-01" []
              { eiaid := some 4, utility := some "Delmarva Power", startdate := some 200 } = [])) :=
  c2_reconcile_by_startdate "DE" [] "2026-01-01" []
    { eiaid := some 4, utility := some "Delmarva Power", startdate := some 200 } 4 rfl
    (by decide)

/-! ### Claim C8 -/

theorem api_call_all_fail (oc : ℕ → ApiOutcome)
    (hfail : ∀ i, i < 3 → (oc i).isFailure = true) :
    api_call oc = (none, [1, 2]) := by
  have h0 := hfail 0 (by omega)
  have h1 := hfail 1 (by omega)
  have h2 := hfail 2 (by omega)
  cases hc0 : oc 0 with
  | success d => rw [hc0] at h0; simp [ApiOutcome.isFailure] at h0
  | failure r0 =>
    cases hc1 : oc 1 with
    | success d => rw [hc1] at h1; simp [ApiOutcome.isFailure] at h1
    | failure r1 =>
      cases hc2 : oc 2 with
      | success d => rw [hc2] at h2; simp [ApiOutcome.isFailure] at h2
      | failure r2 => simp [api_call, api_call_from, hc0, hc1, hc2]

/-- The retry loop never looks past the first three attempt outcomes: two
outcome sequences agreeing on attempts 0, 1, 2 produce identical results. -/
theorem api_call_agree (oc oc' : ℕ → ApiOutcome) (hagree : ∀ i, i < 3 → oc i = oc' i) :
    api_call oc = api_call oc' := by
  have h0 := hagree 0 (by omega)
  have h1 := hagree 1 (by omega)
  have h2 := hagree 2 (by omega)
  cases hc0 : oc 0 with
  | success d => simp [api_call, api_call_from, hc0, h0.symm.trans hc0]
  | failure r =>
    cases hc1 : oc 1 with
    | success d =>
      simp [api_call, api_call_from, hc0, h0.symm.trans hc0, hc1, h1.symm.trans hc1]
    | failure r1 =>
      cases hc2 : oc 2 with
      | success d =>
        simp [api_call, api_call_from, hc0, h0.symm.trans hc0, hc1, h1.symm.trans hc1, hc2,
          h2.symm.trans hc2]
      | failure r2 =>
        simp [api_call, api_call_from, hc0, h0.symm.trans hc0, hc1, h1.symm.trans hc1, hc2,
          h2.symm.trans hc2]

/-- Claim C8: `api_call` performs at most 3 attempts (its behaviour depends
only on the first three attempt outcomes); when all three raise it sleeps
`1*1s` then `1*2s` between attempts and returns the typed failure value
`none` instead of raising; the caller treats such a response as zero items,
leaving the per-state accumulator unchanged and moving on to the next query
point. -/
theorem c8_retry_behavior (oc oc' : ℕ → ApiOutcome)
    (hagree : ∀ i, i < 3 → oc i = oc' i)
    (state_code : String) (known_ious : List (String × Int)) (today : String)
    (m : List (Int × URec)) :
    api_call oc = api_call oc'
    ∧ ((∀ i, i < 3 → (oc i).isFailure = true) → api_call oc = (none, [1, 2]))
    ∧ processGeoResponse state_code known_ious today m none = m :=
  ⟨api_call_agree oc oc' hagree, fun hfail => api_call_all_fail oc hfail, rfl⟩

/-- Witness for `c8_retry_behavior` on a concrete always-failing outcome
sequence and a non-trivial accumulator. -/
theorem c8_retry_witness :
    api_call (fun _ => ApiOutcome.failure "timeout") =
        api_call (fun i => if i < 3 then ApiOutcome.failure "timeout"
          else ApiOutcome.success ⟨[]⟩)
    ∧ ((∀ i, i < 3 → ((fun _ => ApiOutcome.failure "timeout") i).isFailure = true) →
        api_call (fun _ => ApiOutcome.failure "timeout") = (none, [1, 2]))
    ∧ processGeoResponse "DE" [] "2026-01-01"
        [(7, synthRecord "DE" "2026-01-01" "Delmarva Power" 310000 7)] none =
        [(7, synthRecord "DE" "2026-01-01" "Delmarva Power" 310000 7)] :=
  c8_retry_behavior (fun _ => ApiOutcome.failure "timeout")
    (fun i => if i < 3 then ApiOutcome.failure "timeout" else ApiOutcome.success ⟨[]⟩)
    (fun i hi => by simp [hi]) "DE" [] "2026-01-01"
    [(7, synthRecord "DE" "2026-01-01" "Delmarva Power" 310000 7)]

/-! ### Claim C7 -/

/-- Spec-side definition: the unweighted arithmetic mean of the 50 per-state
EIA reference rates. -/
def specNationalMean : ℚ := (EIA_STATE_AVG_RATES.map Prod.snd).sum / 50

/-- Claim C7: the emitted `national_avg_rate` equals the unweighted mean of
the 50 per-state EIA reference rates rounded to 4 decimal places (concretely
0.1578), independent of the utilities collected in any state. -/
theorem c7_national_avg (all_utilities : List CleanRec)
    (state_summary : List (String × StateSummaryEntry))
    (all_utilities' : List CleanRec) (state_summary' : List (String × StateSummaryEntry)) :
    (national_data all_utilities state_summary).national_avg_rate = roundq 4 specNationalMean
    ∧ EIA_STATE_AVG_RATES.length = 50
    ∧ (national_data all_utilities state_summary).national_avg_rate = 0.1578
    ∧ (national_data all_utilities state_summary).national_avg_rate =
        (national_data all_utilities' state_summary').national_avg_rate := by
  refine ⟨?_, by rfl, ?_, rfl⟩
  · show roundq 4 ((EIA_STATE_AVG_RATES.map Prod.snd).sum / (EIA_STATE_AVG_RATES.length : ℚ)) = _
    rw [specNationalMean, show ((EIA_STATE_AVG_RATES.length : ℚ)) = 50 by norm_num [EIA_STATE_AVG_RATES]]
  · show roundq 4 ((EIA_STATE_AVG_RATES.map Prod.snd).sum / (EIA_STATE_AVG_RATES.length : ℚ)) = _
    rw [roundq, round_eq]
    norm_num [EIA_STATE_AVG_RATES]

/-! ### Decimal string representation of integer keys

`utility_id` is `str(eia_id)`; to relate distinctness of `utility_id`s to
distinctness of dictionary keys we prove that `toString : Int → String` is
injective, via an explicit characterization of `Nat.toDigitsCore`. -/

/-- Decimal digits of a natural number (most significant first), mirroring
what `Nat.toDigitsCore` computes at base 10. -/
def natDigits (n : Nat) : List Char :=
  if _h : n < 10 then [Nat.digitChar n]
  else natDigits (n / 10) ++ [Nat.digitChar (n % 10)]
  termination_by n
  decreasing_by exact Nat.div_lt_self (by omega) (by omega)

theorem digitChar_toNat {d : ℕ} (h : d < 10) : (Nat.digitChar d).toNat = 48 + d := by
  interval_cases d <;> rfl

theorem toDigitsCore_eq_natDigits (fuel : ℕ) :
    ∀ (n : ℕ) (ds : List Char), n < fuel →
      Nat.toDigitsCore 10 fuel n ds = natDigits n ++ ds := by
  induction fuel with
  | zero =>
    intro n ds h
    exact absurd h (by omega)
  | succ fuel ih =>
    intro n ds _h
    rw [Nat.toDigitsCore]
    by_cases h10 : n < 10
    · have hdiv : n / 10 = 0 := Nat.div_eq_of_lt h10
      rw [if_pos hdiv, natDigits, dif_pos h10, Nat.mod_eq_of_lt h10]
      rfl
    · have hdiv : ¬ n / 10 = 0 := by omega
      rw [if_neg hdiv, ih (n / 10) (Nat.digitChar (n % 10) :: ds) (by omega)]
      conv_rhs => rw [natDigits]
      rw [dif_neg h10]
      simp

theorem natDigits_foldl (n : ℕ) :
    ∀ a : ℕ, (natDigits n).foldl (fun acc c => 10 * acc + (c.toNat - 48)) a =
      a * 10 ^ (natDigits n).length + n := by
  induction n using Nat.strong_induction_on with
  | _ n ih =>
    intro a
    rw [natDigits]
    by_cases h10 : n < 10
    · rw [dif_pos h10]
      simp [digitChar_toNat h10]
      ring
    · rw [dif_neg h10]
      rw [List.foldl_append]
      rw [ih (n / 10) (Nat.div_lt_self (by omega) (by omega)) a]
      simp [digitChar_toNat (Nat.mod_lt n (by omega))]
      rw [Nat.pow_succ]
      have := Nat.div_add_mod n 10
      ring_nf
      omega

theorem natDigits_injective : Function.Injective natDigits := by
  intro m n h
  have hm := natDigits_foldl m 0
  have hn := natDigits_foldl n 0
  rw [h] at hm
  omega

theorem natDigits_toNat_ge (n : ℕ) : ∀ c ∈ natDigits n, 48 ≤ c.toNat := by
  induction n using Nat.strong_induction_on with
  | _ n ih =>
    intro c hc
    rw [natDigits] at hc
    by_cases h10 : n < 10
    · rw [dif_pos h10] at hc
      simp at hc
      rw [hc, digitChar_toNat h10]
      omega
    · rw [dif_neg h10] at hc
      rcases List.mem_append.mp hc with hc | hc
      · exact ih (n / 10) (Nat.div_lt_self (by omega) (by omega)) c hc
      · simp at hc
        rw [hc, digitChar_toNat (Nat.mod_lt n (by omega))]
        omega

theorem natRepr_data (n : ℕ) : (Nat.repr n).data = natDigits n := by
  show (Nat.toDigits 10 n).asString.data = natDigits n
  rw [Nat.toDigits, toDigitsCore_eq_natDigits (n + 1) n [] (by omega), List.append_nil]
  rfl

theorem toStringInt_injective (a b : Int) (h : toString a = toString b) : a = b := by
  have hdata := congrArg String.data h
  cases a with
  | ofNat m =>
    cases b with
    | ofNat m' =>
      have : (Nat.repr m).data = (Nat.repr m').data := hdata
      rw [natRepr_data, natRepr_data] at this
      exact congrArg Int.ofNat (natDigits_injective this)
    | negSucc m' =>
      have : (Nat.repr m).data = '-' :: (Nat.repr (m' + 1)).data := hdata
      rw [natRepr_data, natRepr_data] at this
      have hmem : ('-' : Char) ∈ natDigits m := by
        rw [this]; exact List.mem_cons_self _ _
      exact absurd (natDigits_toNat_ge m '-' hmem) (by decide)
  | negSucc m =>
    cases b with
    | ofNat m' =>
      have : '-' :: (Nat.repr (m + 1)).data = (Nat.repr m').data := hdata
      rw [natRepr_data, natRepr_data] at this
      have hmem : ('-' : Char) ∈ natDigits m' := by
        rw [← this]; exact List.mem_cons_self _ _
      exact absurd (natDigits_toNat_ge m' '-' hmem) (by decide)
    | negSucc m' =>
      have : '-' :: (Nat.repr (m + 1)).data = '-' :: (Nat.repr (m' + 1)).data := hdata
      rw [natRepr_data, natRepr_data] at this
      injection this with h1 h2
      have hm : m + 1 = m' + 1 := natDigits_injective h2
      exact congrArg Int.negSucc (by omega)

/-! ### Dictionary key invariants -/

/-- The keys of the accumulator dictionary, in insertion order. -/
def keysOf {α : Type} (m : List (Int × α)) : List Int := m.map Prod.fst

theorem mem_keysOf {α : Type} {m : List (Int × α)} {k : Int} :
    k ∈ keysOf m ↔ ∃ p ∈ m, p.1 = k := by
  simp [keysOf]

theorem dictSet_keys {α : Type} (m : List (Int × α)) (k : Int) (v : α) :
    keysOf (dictSet m k v) =
      if m.any (fun p => p.1 == k) then keysOf m else keysOf m ++ [k] := by
  rw [dictSet]
  by_cases hc : m.any (fun p => p.1 == k)
  · rw [if_pos hc, if_pos hc, keysOf, keysOf, List.map_map]
    refine List.map_congr_left (fun p _ => ?_)
    by_cases hpk : p.1 == k
    · simp only [Function.comp_apply, if_pos hpk]
      exact (eq_of_beq hpk).symm
    · simp only [Function.comp_apply, if_neg hpk]
  · rw [if_neg hc, if_neg hc, keysOf, keysOf, List.map_append]
    rfl

theorem dictSet_keys_nodup {α : Type} {m : List (Int × α)} (h : (keysOf m).Nodup)
    (k : Int) (v : α) : (keysOf (dictSet m k v)).Nodup := by
  rw [dictSet_keys]
  by_cases hc : m.any (fun p => p.1 == k)
  · rwa [if_pos hc]
  · rw [if_neg hc]
    have hk : k ∉ keysOf m := by
      intro hmem
      obtain ⟨p, hp, hpk⟩ := mem_keysOf.mp hmem
      exact hc (List.any_eq_true.mpr ⟨p, hp, by simp [hpk]⟩)
    simp [List.nodup_append, h]
    exact hk

/-- Invariant: every stored record's `utility_id` is the decimal string of
its dictionary key. -/
def idsMatchKeys (m : List (Int × URec)) : Prop :=
  ∀ p ∈ m, p.2.utility_id = toString p.1

theorem dictSet_idsMatchKeys {m : List (Int × URec)} (h : idsMatchKeys m) {k : Int} {v : URec}
    (hv : v.utility_id = toString k) : idsMatchKeys (dictSet m k v) := by
  intro p hp
  rcases mem_dictSet hp with rfl | hp
  · exact hv
  · exact h p hp

/-- The two accumulator invariants used by claims C1 and C4. -/
def WellKeyed (m : List (Int × URec)) : Prop :=
  (keysOf m).Nodup ∧ idsMatchKeys m

theorem wellKeyed_dictSet {m : List (Int × URec)} (h : WellKeyed m) {k : Int} {v : URec}
    (hv : v.utility_id = toString k) : WellKeyed (UtilityRates.dictSet m k v) :=
  ⟨dictSet_keys_nodup h.1 k v, dictSet_idsMatchKeys h.2 hv⟩

theorem foldl_preserves {α β : Type _} (P : α → Prop) (f : α → β → α)
    (hstep : ∀ a b, P a → P (f a b)) : ∀ (l : List β) (a : α), P a → P (l.foldl f a) := by
  intro l
  induction l with
  | nil => intro a ha; exact ha
  | cons b t ih => intro a ha; exact ih _ (hstep a b ha)

theorem processItem_wellKeyed (state_code : String) (known_ious : List (String × Int))
    (today : String) (m : List (Int × URec)) (item : RawItem) (h : WellKeyed m) :
    WellKeyed (processItem state_code known_ious today m item) := by
  rw [processItem]
  cases item.eiaid with
  | none => exact h
  | some e =>
    by_cases he : e == 0
    · simp only [if_pos he]; exact h
    · simp only [if_neg he]
      cases dictGet? m e with
      | none => exact wellKeyed_dictSet h rfl
      | some ex =>
        by_cases hacc : decide (item.startdate.getD 0 > ex.internal_startdate) = true
        · simp only [hacc, if_true]
          exact wellKeyed_dictSet h rfl
        · simp only [Bool.not_eq_true] at hacc
          simp only [hacc, Bool.false_eq_true, if_false]
          exact h

theorem processGeoResponse_wellKeyed (state_code : String) (known_ious : List (String × Int))
    (today : String) (m : List (Int × URec)) (resp : Option ApiData) (h : WellKeyed m) :
    WellKeyed (processGeoResponse state_code known_ious today m resp) := by
  cases resp with
  | none => exact h
  | some data =>
    exact foldl_preserves WellKeyed _
      (fun m' it h' => processItem_wellKeyed state_code known_ious today m' it h')
      data.items m h

theorem processKnownIou_wellKeyed (hashS : String → Int) (state_code : String) (today : String)
    (direct : String → Option ApiData) (m : List (Int × URec)) (p : String × Int)
    (h : WellKeyed m) :
    WellKeyed (processKnownIou hashS state_code today direct m p) := by
  rw [processKnownIou]
  split
  · exact h
  · split
    · by_cases hf : m.any (fun q => nameMatch p.1 q.2.utility_name)
      · simp only [hf, if_true]
        exact h
      · have hf' : m.any (fun q => nameMatch p.1 q.2.utility_name) = false := by
          simpa using hf
        simp only [hf', Bool.false_eq_true, if_false]
        split
        · apply wellKeyed_dictSet h
          rfl
        · apply wellKeyed_dictSet h
          rfl
    · by_cases hf : m.any (fun q => nameMatch p.1 q.2.utility_name)
      · simp only [hf, if_true]
        exact h
      · have hf' : m.any (fun q => nameMatch p.1 q.2.utility_name) = false := by
          simpa using hf
        simp only [hf', Bool.false_eq_true, if_false]
        apply wellKeyed_dictSet h
        rfl

/-- Claim C4: within one state's returned list, the `utility_id` fields are
pairwise distinct — exactly one record per `(state, utility_id)` pair across
geographic, direct-name and synthesized records, for every environment. -/
theorem c4_utility_ids_nodup (hashS : String → Int) (today : String)
    (geoResponses : List (Option ApiData)) (direct : String → Option ApiData)
    (state_code : String) :
    ((fetch_utilities_for_state hashS today geoResponses direct state_code).map
      (fun r => r.utility_id)).Nodup := by
  rw [fetch_utilities_for_state]
  have hWK : WellKeyed (backfillPhase hashS today direct state_code
      (geoPhase today geoResponses state_code)) := by
    rw [backfillPhase, geoPhase]
    refine foldl_preserves WellKeyed _
      (fun m p h => processKnownIou_wellKeyed hashS state_code today direct m p h) _ _ ?_
    refine foldl_preserves WellKeyed _
      (fun m resp h =>
        processGeoResponse_wellKeyed state_code (knownIousOf state_code) today m resp h) _ _ ?_
    exact ⟨List.nodup_nil, fun p hp => absurd hp (List.not_mem_nil p)⟩
  set m2 := backfillPhase hashS today direct state_code
    (geoPhase today geoResponses state_code) with hm2
  have hperm : ((m2.map (fun p => cleanRec p.2)).mergeSort
      (fun a b => decide (b.customer_count ≤ a.customer_count))).Perm
      (m2.map (fun p => cleanRec p.2)) := List.mergeSort_perm _ _
  refine ((hperm.map (fun r => r.utility_id)).nodup_iff).mpr ?_
  have hmap : (m2.map (fun p => cleanRec p.2)).map (fun r => r.utility_id) =
      (keysOf m2).map toString := by
    rw [List.map_map, keysOf, List.map_map]
    refine List.map_congr_left (fun p hp => ?_)
    show (cleanRec p.2).utility_id = toString p.1
    show p.2.utility_id = toString p.1
    exact hWK.2 p hp
  rw [hmap]
  exact hWK.1.map (fun a b h => toStringInt_injective a b h)

/-! ### Rate plausibility range -/

theorem lookup_mem_snd {α β : Type _} [BEq α] {l : List (α × β)} {k : α} {v : β}
    (h : List.lookup k l = some v) : v ∈ l.map Prod.snd := by
  induction l with
  | nil => simp [List.lookup] at h
  | cons p rest ih =>
    obtain ⟨pk, pv⟩ := p
    rw [List.lookup] at h
    split at h
    · simp only [Option.some.injEq] at h
      simp [h]
    · simp [ih h]

/-- All 50 EIA reference rates, and the 0.13 default, lie inside
`[0.01, 1.0]`. -/
theorem eiaAvg_range (s : String) : 1/100 ≤ eiaAvg s ∧ eiaAvg s ≤ 1 := by
  rw [eiaAvg]
  cases hl : List.lookup s EIA_STATE_AVG_RATES with
  | none =>
    simp only [Option.getD_none]
    norm_num
  | some v =>
    simp only [Option.getD_some]
    have hv := lookup_mem_snd hl
    simp only [EIA_STATE_AVG_RATES, List.map_cons, List.map_nil] at hv
    fin_cases hv <;> exact ⟨by norm_num, by norm_num⟩

theorem plausibleRate_range (s : String) (o : Option ℚ) :
    1/100 ≤ plausibleRate s o ∧ plausibleRate s o ≤ 1 := by
  cases o with
  | none => exact eiaAvg_range s
  | some r =>
    rw [plausibleRate]
    by_cases hr : r < 0.01 ∨ r > 1.0
    · rw [if_pos hr]
      exact eiaAvg_range s
    · rw [if_neg hr]
      push_neg at hr
      constructor
      · calc (1/100 : ℚ) = 0.01 := by norm_num
          _ ≤ r := hr.1
      · calc r ≤ 1.0 := hr.2
          _ = 1 := by norm_num

theorem roundq_le_roundq (n : ℕ) {x y : ℚ} (h : x ≤ y) : roundq n x ≤ roundq n y := by
  have hpow : (0 : ℚ) < 10 ^ n := by positivity
  have hfl : round (x * 10 ^ n) ≤ round (y * 10 ^ n) := by
    rw [round_eq, round_eq]
    exact Int.floor_le_floor (by nlinarith)
  rw [roundq, roundq]
  gcongr

theorem roundq4_range {x : ℚ} (h1 : 1/100 ≤ x) (h2 : x ≤ 1) :
    1/100 ≤ roundq 4 x ∧ roundq 4 x ≤ 1 := by
  constructor
  · calc (1/100 : ℚ) = roundq 4 (1/100) := by rw [roundq, round_eq]; norm_num
      _ ≤ roundq 4 x := roundq_le_roundq 4 h1
  · calc roundq 4 x ≤ roundq 4 1 := roundq_le_roundq 4 h2
      _ = 1 := by rw [roundq, round_eq]; norm_num

/-- Invariant: every stored record's rate lies in `[0.01, 1.0]`. -/
def RatesOk (m : List (Int × URec)) : Prop :=
  ∀ p ∈ m, 1/100 ≤ p.2.residential_avg_rate ∧ p.2.residential_avg_rate ≤ 1

theorem ratesOk_dictSet {m : List (Int × URec)} (h : RatesOk m) {k : Int} {v : URec}
    (hv : 1/100 ≤ v.residential_avg_rate ∧ v.residential_avg_rate ≤ 1) :
    RatesOk (UtilityRates.dictSet m k v) := by
  intro p hp
  rcases mem_dictSet hp with rfl | hp
  · exact hv
  · exact h p hp

theorem geoRecord_rate_range (state_code : String) (known_ious : List (String × Int))
    (today : String) (item : RawItem) (eia_id : Int) (utility_name : String) (item_start : Int) :
    1/100 ≤ (geoRecord state_code known_ious today item eia_id utility_name
        item_start).residential_avg_rate
    ∧ (geoRecord state_code known_ious today item eia_id utility_name
        item_start).residential_avg_rate ≤ 1 := by
  have h := plausibleRate_range state_code (extract_rate_from_structure item.toRateData)
  exact roundq4_range h.1 h.2

theorem directRecord_rate_range (state_code : String) (today : String) (iou_name : String)
    (customer_count : Int) (item : RawItem) (eia_id : Int) :
    1/100 ≤ (directRecord state_code today iou_name customer_count item
        eia_id).residential_avg_rate
    ∧ (directRecord state_code today iou_name customer_count item
        eia_id).residential_avg_rate ≤ 1 := by
  have h := plausibleRate_range state_code (extract_rate_from_structure item.toRateData)
  exact roundq4_range h.1 h.2

theorem processItem_ratesOk (state_code : String) (known_ious : List (String × Int))
    (today : String) (m : List (Int × URec)) (item : RawItem) (h : RatesOk m) :
    RatesOk (processItem state_code known_ious today m item) := by
  rw [processItem]
  cases item.eiaid with
  | none => exact h
  | some e =>
    by_cases he : e == 0
    · simp only [if_pos he]
      exact h
    · simp only [if_neg he]
      cases dictGet? m e with
      | none => exact ratesOk_dictSet h (geoRecord_rate_range _ _ _ _ _ _ _)
      | some ex =>
        by_cases hacc : decide (item.startdate.getD 0 > ex.internal_startdate) = true
        · simp only [hacc, if_true]
          exact ratesOk_dictSet h (geoRecord_rate_range _ _ _ _ _ _ _)
        · simp only [Bool.not_eq_true] at hacc
          simp only [hacc, Bool.false_eq_true, if_false]
          exact h

theorem processGeoResponse_ratesOk (state_code : String) (known_ious : List (String × Int))
    (today : String) (m : List (Int × URec)) (resp : Option ApiData) (h : RatesOk m) :
    RatesOk (processGeoResponse state_code known_ious today m resp) := by
  cases resp with
  | none => exact h
  | some data =>
    exact foldl_preserves RatesOk _
      (fun m' it h' => processItem_ratesOk state_code known_ious today m' it h')
      data.items m h

theorem processKnownIou_ratesOk (hashS : String → Int) (state_code : String) (today : String)
    (direct : String → Option ApiData) (m : List (Int × URec)) (p : String × Int)
    (h : RatesOk m) :
    RatesOk (processKnownIou hashS state_code today direct m p) := by
  rw [processKnownIou]
  split
  · exact h
  · split
    · by_cases hf : m.any (fun q => nameMatch p.1 q.2.utility_name)
      · simp only [hf, if_true]
        exact h
      · have hf' : m.any (fun q => nameMatch p.1 q.2.utility_name) = false := by
          simpa using hf
        simp only [hf', Bool.false_eq_true, if_false]
        split
        · exact ratesOk_dictSet h (directRecord_rate_range _ _ _ _ _ _)
        · exact ratesOk_dictSet h (eiaAvg_range state_code)
    · by_cases hf : m.any (fun q => nameMatch p.1 q.2.utility_name)
      · simp only [hf, if_true]
        exact h
      · have hf' : m.any (fun q => nameMatch p.1 q.2.utility_name) = false := by
          simpa using hf
        simp only [hf', Bool.false_eq_true, if_false]
        exact ratesOk_dictSet h (eiaAvg_range state_code)

/-- Claim C1 (amended): every record a state's reconciliation returns carries
`residential_avg_rate` in the closed interval `[0.01, 1.0]`; and whenever the
value extracted from the raw item is missing, below 0.01 or above 1.0, the
state's EIA average is substituted before the record is built, so the raw
out-of-range value is never surfaced. -/
theorem c1_rate_range_amended (hashS : String → Int) (today : String)
    (geoResponses : List (Option ApiData)) (direct : String → Option ApiData)
    (state_code : String) :
    (∀ r ∈ fetch_utilities_for_state hashS today geoResponses direct state_code,
        1/100 ≤ r.residential_avg_rate ∧ r.residential_avg_rate ≤ 1)
    ∧ (∀ s : String, ∀ avg : Option ℚ,
        (avg = none ∨ ∃ v, avg = some v ∧ (v < 0.01 ∨ v > 1.0)) →
        plausibleRate s avg = eiaAvg s) := by
  constructor
  · intro r hr
    rw [fetch_utilities_for_state] at hr
    rw [List.mem_mergeSort] at hr
    obtain ⟨p, hp, rfl⟩ := List.mem_map.mp hr
    have hOk : RatesOk (backfillPhase hashS today direct state_code
        (geoPhase today geoResponses state_code)) := by
      rw [backfillPhase, geoPhase]
      refine foldl_preserves RatesOk _
        (fun m q h => processKnownIou_ratesOk hashS state_code today direct m q h) _ _ ?_
      refine foldl_preserves RatesOk _
        (fun m resp h =>
          processGeoResponse_ratesOk state_code (knownIousOf state_code) today m resp h) _ _ ?_
      exact fun q hq => absurd hq (List.not_mem_nil q)
    exact hOk p hp
  · rintro s avg (rfl | ⟨v, rfl, hv⟩)
    · rfl
    · rw [plausibleRate, if_pos hv]

/-- Witness for `c1_rate_range_amended`: the synthesized Delmarva Power
record for DE, obtained from an empty environment, has its rate in range. -/
theorem c1_rate_range_witness :
    1/100 ≤ (cleanRec (synthRecord "DE" "2026-02-03" "Delmarva Power" 310000 7)).residential_avg_rate
    ∧ (cleanRec (synthRecord "DE" "2026-02-03" "Delmarva Power" 310000 7)).residential_avg_rate ≤ 1 :=
  (c1_rate_range_amended (fun _ => 7) "2026-02-03" [] (fun _ => none) "DE").1
    (cleanRec (synthRecord "DE" "2026-02-03" "Delmarva Power" 310000 7))
    (List.mem_mergeSort.mpr (List.Mem.head _))

/-- A raw item whose single tier has rate exactly 0.01: the extracted value
0.01 is not substituted (the check is `< 0.01`) and is stored as-is. -/
def lowTierItem : RawItem :=
  { eiaid := some 4, utility := some "Delmarva Power", startdate := some 100,
    energyratestructure := some [PeriodEntry.periodL [TierEntry.tierD 0.01 0]] }

/-- Claim C1, as stated, is false: the stored rate can be exactly 0.01, which
lies outside the claimed open-below interval `(0.01, 1.0]`. -/
theorem c1_counterexample :
    ∃ r ∈ fetch_utilities_for_state (fun _ => 7) "2026-02-03"
        [some ⟨[lowTierItem]⟩] (fun _ => none) "DE",
      ¬ (1/100 < r.residential_avg_rate ∧ r.residential_avg_rate ≤ 1) := by
  refine ⟨cleanRec (geoRecord "DE" (knownIousOf "DE") "2026-02-03" lowTierItem 4
    "Delmarva Power" 100), ?_, ?_⟩
  · exact List.mem_mergeSort.mpr (List.Mem.head _)
  · have hrate : (cleanRec (geoRecord "DE" (knownIousOf "DE") "2026-02-03" lowTierItem 4
        "Delmarva Power" 100)).residential_avg_rate = 1/100 := by
      show roundq 4 (plausibleRate "DE"
        (extract_rate_from_structure lowTierItem.toRateData)) = 1/100
      have hext : extract_rate_from_structure lowTierItem.toRateData =
          some (roundq 5 ((0 + (0.01 + 0)) / 1)) := rfl
      have h5 : roundq 5 ((0 + ((0.01 : ℚ) + 0)) / 1) = 1/100 := by
        rw [roundq, round_eq]
        norm_num
      rw [hext, h5]
      have hpl : plausibleRate "DE" (some (1/100)) = 1/100 := by
        rw [plausibleRate]
        rw [if_neg (by norm_num)]
      rw [hpl, roundq, round_eq]
      norm_num
    rw [hrate]
    intro hcontra
    exact absurd hcontra.1 (by norm_num)

/-! ### Claim C3: back-fill guarantees -/

theorem isPrefixOf_self (l : List Char) : l.isPrefixOf l = true := by
  induction l with
  | nil => rfl
  | cons c rest ih => simp [List.isPrefixOf, ih]

theorem strContains_self (s : String) : strContains s s = true := by
  rw [strContains]
  cases h : s.toList with
  | nil => rfl
  | cons c rest =>
    rw [subListAt]
    simp [isPrefixOf_self]

theorem nameMatch_self (s : String) : nameMatch s s = true := by
  rw [nameMatch, strContains_self]
  rfl

theorem dictSet_of_fresh {α : Type} {m : List (Int × α)} {k : Int} (h : k ∉ keysOf m) (v : α) :
    dictSet m k v = m ++ [(k, v)] := by
  rw [dictSet, if_neg]
  intro hc
  obtain ⟨p, hp, hpk⟩ := List.any_eq_true.mp hc
  exact h (mem_keysOf.mpr ⟨p, hp, eq_of_beq hpk⟩)

theorem backfillKey_of_empty {hashS : String → Int} {direct : String → Option ApiData}
    {iou : String} (h : ∀ d, direct iou = some d → d.items = []) :
    backfillKey hashS direct iou = hashS iou := by
  rw [backfillKey]
  cases hd : direct iou with
  | none => rfl
  | some d =>
    simp only [h d hd]

/-- Case analysis of one back-fill step: it leaves the accumulator alone
(zero customer count, or an accumulated record already matches), or it stores
one record, named after the known utility, under `backfillKey`; when the
direct query yields nothing that record is the synthesized one. -/
theorem processKnownIou_eq (hashS : String → Int) (state_code today : String)
    (direct : String → Option ApiData) (m : List (Int × URec)) (q : String × Int) :
    (q.2 = 0 ∧ processKnownIou hashS state_code today direct m q = m)
    ∨ (q.2 ≠ 0 ∧ m.any (fun r => nameMatch q.1 r.2.utility_name) = true
        ∧ processKnownIou hashS state_code today direct m q = m)
    ∨ (q.2 ≠ 0 ∧ m.any (fun r => nameMatch q.1 r.2.utility_name) = false
        ∧ ∃ v : URec, v.utility_name = q.1
          ∧ processKnownIou hashS state_code today direct m q =
              dictSet m (backfillKey hashS direct q.1) v
          ∧ ((∀ d, direct q.1 = some d → d.items = []) →
              v = synthRecord state_code today q.1 q.2 (hashS q.1))) := by
  by_cases hz : q.2 = 0
  · refine Or.inl ⟨hz, ?_⟩
    simp only [processKnownIou]
    rw [if_pos (by simpa using hz)]
  · right
    have hz' : (q.2 == 0) = false := by simpa using hz
    by_cases hf : m.any (fun r => nameMatch q.1 r.2.utility_name)
    · left
      refine ⟨hz, hf, ?_⟩
      simp only [processKnownIou]
      rw [if_neg (by simp [hz']), if_pos hf]
    · have hf' : m.any (fun r => nameMatch q.1 r.2.utility_name) = false := by simpa using hf
      right
      refine ⟨hz, hf', ?_⟩
      cases hd : direct q.1 with
      | none =>
        refine ⟨synthRecord state_code today q.1 q.2 (hashS q.1), rfl, ?_, fun _ => rfl⟩
        have hk : backfillKey hashS direct q.1 = hashS q.1 := by
          rw [backfillKey, hd]
        rw [hk]
        simp only [processKnownIou]
        rw [if_neg (by simp [hz']), if_neg (by simp [hf'])]
        simp only [hd]
      | some d =>
        cases hi : d.items with
        | nil =>
          refine ⟨synthRecord state_code today q.1 q.2 (hashS q.1), rfl, ?_, fun _ => rfl⟩
          have hk : backfillKey hashS direct q.1 = hashS q.1 := by
            rw [backfillKey, hd]
            simp only [hi]
          rw [hk]
          simp only [processKnownIou]
          rw [if_neg (by simp [hz']), if_neg (by simp [hf'])]
          simp only [hd, hi]
        | cons item rest =>
          refine ⟨directRecord state_code today q.1 q.2 item (item.eiaid.getD (hashS q.1)),
            rfl, ?_, ?_⟩
          · have hk : backfillKey hashS direct q.1 = item.eiaid.getD (hashS q.1) := by
              rw [backfillKey, hd]
              simp only [hi]
            rw [hk]
            simp only [processKnownIou]
            rw [if_neg (by simp [hz']), if_neg (by simp [hf'])]
            simp only [hd, hi]
          · intro hemp
            have := hemp d rfl
            rw [hi] at this
            simp at this

/-- Main back-fill fold invariant.  Under key freshness (every pending
non-zero known utility's `backfillKey` is absent from the accumulator and
they are pairwise distinct): stored records survive the fold; every non-zero
known utility in the pending list ends up matched by some stored record; and
a non-zero known utility matched neither by the starting accumulator nor by
any earlier non-zero known's name, whose direct query yields nothing, ends up
with its synthesized record stored. -/
theorem backfill_fold_spec (hashS : String → Int) (state_code today : String)
    (direct : String → Option ApiData) :
    ∀ (rest : List (String × Int)) (m : List (Int × URec)),
      (∀ q ∈ rest, q.2 ≠ 0 → backfillKey hashS direct q.1 ∉ keysOf m) →
      ((rest.filter (fun q => q.2 != 0)).map (fun q => backfillKey hashS direct q.1)).Nodup →
      (∀ r ∈ m.map Prod.snd,
          r ∈ (rest.foldl (processKnownIou hashS state_code today direct) m).map Prod.snd)
      ∧ (∀ l1 l2 : List (String × Int), ∀ iou : String, ∀ c : Int,
          rest = l1 ++ (iou, c) :: l2 → c ≠ 0 →
          ∃ r ∈ (rest.foldl (processKnownIou hashS state_code today direct) m).map Prod.snd,
            nameMatch iou r.utility_name = true)
      ∧ (∀ l1 l2 : List (String × Int), ∀ iou : String, ∀ c : Int,
          rest = l1 ++ (iou, c) :: l2 → c ≠ 0 →
          (∀ r ∈ m.map Prod.snd, nameMatch iou r.utility_name = false) →
          (∀ q ∈ l1, q.2 ≠ 0 → nameMatch iou q.1 = false) →
          (∀ d, direct iou = some d → d.items = []) →
          synthRecord state_code today iou c (hashS iou) ∈
            (rest.foldl (processKnownIou hashS state_code today direct) m).map Prod.snd) := by
  intro rest
  induction rest with
  | nil =>
    intro m _hdisj _hnodup
    refine ⟨fun r hr => hr, ?_, ?_⟩
    · intro l1 l2 iou c hsplit
      exact absurd hsplit (by cases l1 <;> simp)
    · intro l1 l2 iou c hsplit
      exact absurd hsplit (by cases l1 <;> simp)
  | cons q rest' ih =>
    intro m hdisj hnodup
    rcases processKnownIou_eq hashS state_code today direct m q with
      ⟨hz, hstep⟩ | ⟨hz, hf, hstep⟩ | ⟨hz, hf, v, hv, hstep, hvsynth⟩
    · -- zero customer count: the step is a no-op
      have hfe : (q.2 != 0) = false := by simpa using hz
      have hnodup' : ((rest'.filter (fun p => p.2 != 0)).map
          (fun p => backfillKey hashS direct p.1)).Nodup := by
        rwa [List.filter_cons, if_neg (by simp [hfe])] at hnodup
      have hdisj' : ∀ p ∈ rest', p.2 ≠ 0 → backfillKey hashS direct p.1 ∉ keysOf m :=
        fun p hp => hdisj p (List.mem_cons_of_mem q hp)
      obtain ⟨ha, hb, hc⟩ := ih m hdisj' hnodup'
      refine ⟨?_, ?_, ?_⟩
      · intro r hr
        rw [List.foldl_cons, hstep]
        exact ha r hr
      · intro l1 l2 iou c hsplit hcne
        cases l1 with
        | nil =>
          simp only [List.nil_append, List.cons.injEq] at hsplit
          exact absurd ((congrArg Prod.snd hsplit.1).symm.trans hz) hcne
        | cons p l1' =>
          simp only [List.cons_append, List.cons.injEq] at hsplit
          rw [List.foldl_cons, hstep]
          exact hb l1' l2 iou c hsplit.2 hcne
      · intro l1 l2 iou c hsplit hcne hnomatch hl1 hempty
        cases l1 with
        | nil =>
          simp only [List.nil_append, List.cons.injEq] at hsplit
          exact absurd ((congrArg Prod.snd hsplit.1).symm.trans hz) hcne
        | cons p l1' =>
          simp only [List.cons_append, List.cons.injEq] at hsplit
          rw [List.foldl_cons, hstep]
          exact hc l1' l2 iou c hsplit.2 hcne hnomatch
            (fun p' hp' => hl1 p' (List.mem_cons_of_mem p hp')) hempty
    · -- an accumulated record already matches: the step is a no-op
      have hte : (q.2 != 0) = true := by simpa using hz
      have hnodup0 : ((backfillKey hashS direct q.1) ::
          (rest'.filter (fun p => p.2 != 0)).map
            (fun p => backfillKey hashS direct p.1)).Nodup := by
        rwa [List.filter_cons, if_pos (by simp [hte]), List.map_cons] at hnodup
      have hnodup' := (List.nodup_cons.mp hnodup0).2
      have hdisj' : ∀ p ∈ rest', p.2 ≠ 0 → backfillKey hashS direct p.1 ∉ keysOf m :=
        fun p hp => hdisj p (List.mem_cons_of_mem q hp)
      obtain ⟨ha, hb, hc⟩ := ih m hdisj' hnodup'
      refine ⟨?_, ?_, ?_⟩
      · intro r hr
        rw [List.foldl_cons, hstep]
        exact ha r hr
      · intro l1 l2 iou c hsplit hcne
        cases l1 with
        | nil =>
          simp only [List.nil_append, List.cons.injEq] at hsplit
          obtain ⟨p, hp, hmatch⟩ := List.any_eq_true.mp hf
          rw [List.foldl_cons, hstep]
          refine ⟨p.2, ha p.2 (List.mem_map.mpr ⟨p, hp, rfl⟩), ?_⟩
          have hq1 : q.1 = iou := congrArg Prod.fst hsplit.1
          rw [← hq1]
          exact hmatch
        | cons p l1' =>
          simp only [List.cons_append, List.cons.injEq] at hsplit
          rw [List.foldl_cons, hstep]
          exact hb l1' l2 iou c hsplit.2 hcne
      · intro l1 l2 iou c hsplit hcne hnomatch hl1 hempty
        cases l1 with
        | nil =>
          simp only [List.nil_append, List.cons.injEq] at hsplit
          obtain ⟨p, hp, hmatch⟩ := List.any_eq_true.mp hf
          have := hnomatch p.2 (List.mem_map.mpr ⟨p, hp, rfl⟩)
          have hq1 : q.1 = iou := congrArg Prod.fst hsplit.1
          rw [← hq1] at this
          rw [this] at hmatch
          exact absurd hmatch (by simp)
        | cons p l1' =>
          simp only [List.cons_append, List.cons.injEq] at hsplit
          rw [List.foldl_cons, hstep]
          exact hc l1' l2 iou c hsplit.2 hcne hnomatch
            (fun p' hp' => hl1 p' (List.mem_cons_of_mem p hp')) hempty
    · -- the step stores one fresh record named after the known utility
      have hte : (q.2 != 0) = true := by simpa using hz
      have hkfresh : backfillKey hashS direct q.1 ∉ keysOf m :=
        hdisj q (List.mem_cons_self q rest') hz
      have happend : processKnownIou hashS state_code today direct m q =
          m ++ [(backfillKey hashS direct q.1, v)] := by
        rw [hstep, dictSet_of_fresh hkfresh]
      have hnodup0 : ((backfillKey hashS direct q.1) ::
          (rest'.filter (fun p => p.2 != 0)).map
            (fun p => backfillKey hashS direct p.1)).Nodup := by
        rwa [List.filter_cons, if_pos (by simp [hte]), List.map_cons] at hnodup
      have hnodup' := (List.nodup_cons.mp hnodup0).2
      have hknotin := (List.nodup_cons.mp hnodup0).1
      have hkeys' : keysOf (m ++ [(backfillKey hashS direct q.1, v)]) =
          keysOf m ++ [backfillKey hashS direct q.1] := by
        rw [keysOf, List.map_append]
        rfl
      have hdisj' : ∀ p ∈ rest', p.2 ≠ 0 →
          backfillKey hashS direct p.1 ∉
            keysOf (m ++ [(backfillKey hashS direct q.1, v)]) := by
        intro p hp hpz
        rw [hkeys']
        intro hmem
        rcases List.mem_append.mp hmem with hmem | hmem
        · exact hdisj p (List.mem_cons_of_mem q hp) hpz hmem
        · have hpk : backfillKey hashS direct p.1 ∈
              (rest'.filter (fun r => r.2 != 0)).map
                (fun r => backfillKey hashS direct r.1) :=
            List.mem_map.mpr ⟨p, List.mem_filter.mpr ⟨hp, by simpa using hpz⟩, rfl⟩
          rw [List.mem_singleton.mp hmem] at hpk
          exact hknotin hpk
      obtain ⟨ha, hb, hc⟩ := ih (m ++ [(backfillKey hashS direct q.1, v)]) hdisj' hnodup'
      have hvmem : v ∈ (m ++ [(backfillKey hashS direct q.1, v)]).map Prod.snd := by
        rw [List.map_append]
        exact List.mem_append.mpr (Or.inr (by simp))
      have hmold : ∀ r ∈ m.map Prod.snd,
          r ∈ (m ++ [(backfillKey hashS direct q.1, v)]).map Prod.snd := by
        intro r hr
        rw [List.map_append]
        exact List.mem_append.mpr (Or.inl hr)
      refine ⟨?_, ?_, ?_⟩
      · intro r hr
        rw [List.foldl_cons, happend]
        exact ha r (hmold r hr)
      · intro l1 l2 iou c hsplit hcne
        cases l1 with
        | nil =>
          simp only [List.nil_append, List.cons.injEq] at hsplit
          rw [List.foldl_cons, happend]
          refine ⟨v, ha v hvmem, ?_⟩
          have hq1 : q.1 = iou := congrArg Prod.fst hsplit.1
          rw [hv, hq1]
          exact nameMatch_self iou
        | cons p l1' =>
          simp only [List.cons_append, List.cons.injEq] at hsplit
          rw [List.foldl_cons, happend]
          exact hb l1' l2 iou c hsplit.2 hcne
      · intro l1 l2 iou c hsplit hcne hnomatch hl1 hempty
        cases l1 with
        | nil =>
          simp only [List.nil_append, List.cons.injEq] at hsplit
          rw [List.foldl_cons, happend]
          have hq1 : q.1 = iou := congrArg Prod.fst hsplit.1
          have hq2 : q.2 = c := congrArg Prod.snd hsplit.1
          have hsynth := hvsynth (by rw [hq1]; exact hempty)
          rw [← hq1, ← hq2, ← hsynth]
          exact ha v hvmem
        | cons p l1' =>
          simp only [List.cons_append, List.cons.injEq] at hsplit
          rw [List.foldl_cons, happend]
          refine hc l1' l2 iou c hsplit.2 hcne ?_
            (fun p' hp' => hl1 p' (List.mem_cons_of_mem p hp')) hempty
          intro r hr
          rw [List.map_append] at hr
          rcases List.mem_append.mp hr with hr | hr
          · exact hnomatch r hr
          · have hrv : r = v := by simpa using hr
            have hqp1 : q.1 = p.1 := congrArg Prod.fst hsplit.1
            have hqp2 : q.2 = p.2 := congrArg Prod.snd hsplit.1
            rw [hrv, hv, hqp1]
            exact hl1 p (List.mem_cons_self p l1') (by rw [hqp2] at hz; exact hz)
/-- Claim C3 (amended): fix a state and a Known Utility with non-zero
customer count.  Assume back-fill key freshness: no direct-item `eiaid` or
name-hash key collides with a geographic-phase key or with another known
utility's back-fill key.  Then the final per-state list contains at least one
record matching the known utility's name (case-insensitive substring in
either direction); and if no geographic-phase record matches it, no earlier
non-zero known utility's name matches it, and its direct-name query returns
no items, the final list contains its synthesized record: named after it,
with `rate_structure = "tiered"`, `residential_avg_rate` = the state's EIA
average, `tou_available = false` and `demand_charges = false`. -/
theorem c3_known_utility_backfill_amended
    (hashS : String → Int) (today : String) (geoResponses : List (Option ApiData))
    (direct : String → Option ApiData) (state_code : String)
    (l1 l2 : List (String × Int)) (iou : String) (c : Int)
    (hsplit : knownIousOf state_code = l1 ++ (iou, c) :: l2)
    (hc : c ≠ 0)
    (hfresh : (keysOf (geoPhase today geoResponses state_code) ++
      ((knownIousOf state_code).filter (fun q => q.2 != 0)).map
        (fun q => backfillKey hashS direct q.1)).Nodup) :
    (∃ r ∈ fetch_utilities_for_state hashS today geoResponses direct state_code,
        nameMatch iou r.utility_name = true)
    ∧ ((∀ r ∈ (geoPhase today geoResponses state_code).map Prod.snd,
          nameMatch iou r.utility_name = false) →
       (∀ q ∈ l1, q.2 ≠ 0 → nameMatch iou q.1 = false) →
       (∀ d, direct iou = some d → d.items = []) →
       ∃ r ∈ fetch_utilities_for_state hashS today geoResponses direct state_code,
         r.utility_name = iou ∧ r.rate_structure = "tiered"
         ∧ r.residential_avg_rate = eiaAvg state_code
         ∧ r.tou_available = false ∧ r.demand_charges = false) := by
  rw [List.nodup_append] at hfresh
  obtain ⟨hgeoNd, hbkNd, hdisjGeo⟩ := hfresh
  have hdisj : ∀ q ∈ knownIousOf state_code, q.2 ≠ 0 →
      backfillKey hashS direct q.1 ∉ keysOf (geoPhase today geoResponses state_code) := by
    intro q hq hqz hmem
    exact hdisjGeo hmem
      (List.mem_map.mpr ⟨q, List.mem_filter.mpr ⟨hq, by simpa using hqz⟩, rfl⟩)
  obtain ⟨ha, hb, hcc⟩ := backfill_fold_spec hashS state_code today direct
    (knownIousOf state_code) (geoPhase today geoResponses state_code) hdisj hbkNd
  constructor
  · obtain ⟨r, hr, hmatch⟩ := hb l1 l2 iou c hsplit hc
    obtain ⟨p, hp, hpr⟩ := List.mem_map.mp hr
    refine ⟨cleanRec r, ?_, hmatch⟩
    rw [fetch_utilities_for_state, List.mem_mergeSort, backfillPhase]
    exact List.mem_map.mpr ⟨p, hp, by rw [hpr]⟩
  · intro hnomatch hl1 hempty
    have hsyn := hcc l1 l2 iou c hsplit hc hnomatch hl1 hempty
    obtain ⟨p, hp, hpr⟩ := List.mem_map.mp hsyn
    refine ⟨cleanRec (synthRecord state_code today iou c (hashS iou)), ?_, rfl, rfl, rfl,
      rfl, rfl⟩
    rw [fetch_utilities_for_state, List.mem_mergeSort, backfillPhase]
    exact List.mem_map.mpr ⟨p, hp, by rw [hpr]⟩

/-- Witness for `c3_known_utility_backfill_amended`: the DE scenario of the
spec — no geographic results, empty direct query — yields the synthesized
Delmarva Power record with the DE average rate. -/
theorem c3_known_utility_witness :
    (∃ r ∈ fetch_utilities_for_state (fun _ => 7) "2026-02-03" [] (fun _ => none) "DE",
        nameMatch "Delmarva Power" r.utility_name = true)
    ∧ ((∀ r ∈ (geoPhase "2026-02-03" [] "DE").map Prod.snd,
          nameMatch "Delmarva Power" r.utility_name = false) →
       (∀ q ∈ ([] : List (String × Int)), q.2 ≠ 0 →
          nameMatch "Delmarva Power" q.1 = false) →
       (∀ d : ApiData, (fun _ : String => (none : Option ApiData)) "Delmarva Power" = some d →
          d.items = []) →
       ∃ r ∈ fetch_utilities_for_state (fun _ => 7) "2026-02-03" [] (fun _ => none) "DE",
         r.utility_name = "Delmarva Power" ∧ r.rate_structure = "tiered"
         ∧ r.residential_avg_rate = eiaAvg "DE"
         ∧ r.tou_available = false ∧ r.demand_charges = false) :=
  c3_known_utility_backfill_amended (fun _ => 7) "2026-02-03" [] (fun _ => none) "DE"
    [] [] "Delmarva Power" 310000 rfl (by decide) (by decide)

/-- A geographic item for Delmarva Power under EIA id 1. -/
def delmarvaItem1 : RawItem :=
  { eiaid := some 1, utility := some "Delmarva Power", startdate := some 100 }

/-- A second geographic item, same utility name, different EIA id. -/
def delmarvaItem2 : RawItem :=
  { eiaid := some 2, utility := some "Delmarva Power", startdate := some 100 }

/-- Claim C3, as stated ("appears exactly once"), is false: two geographic
items carrying the known utility's name under different EIA ids both survive
deduplication, so the known utility appears twice in DE's final list. -/
theorem c3_counterexample :
    ¬ ((fetch_utilities_for_state (fun _ => 7) "2026-02-03"
          [some ⟨[delmarvaItem1, delmarvaItem2]⟩] (fun _ => none) "DE").countP
        (fun r => r.utility_name == "Delmarva Power") = 1) := by
  have hperm := List.mergeSort_perm
    ((backfillPhase (fun _ => 7) "2026-02-03" (fun _ => none) "DE"
      (geoPhase "2026-02-03" [some ⟨[delmarvaItem1, delmarvaItem2]⟩] "DE")).map
        (fun p => cleanRec p.2))
    (fun a b => decide (b.customer_count ≤ a.customer_count))
  rw [fetch_utilities_for_state, hperm.countP_eq]
  have h2 : ((backfillPhase (fun _ => 7) "2026-02-03" (fun _ => none) "DE"
      (geoPhase "2026-02-03" [some ⟨[delmarvaItem1, delmarvaItem2]⟩] "DE")).map
        (fun p => cleanRec p.2)).countP
      (fun r => r.utility_name == "Delmarva Power") = 2 := rfl
  rw [h2]
  decide

end UtilityRates
